import Mathlib

/-!
Verification development for the agent-orchestration library
(`AgentManager` / `Agent` / `Model` / `OpenAi` adapter / `Container`).

The development has three parts:

* a shallow embedding of the JSON value universe together with the
  serialization (`dumps`, modelling Python's `json.dumps` with its default
  separators) and parsing (`loads`, modelling `json.loads`) that
  `Model.set_messages` / `Model.get_messages` route every message list
  through;
* a string-level embedding of the message-storage layer
  (`Model.set_messages`, `Model.get_messages`, `OpenAi.set_system_message`,
  `OpenAi.set_user_message`, `Agent.set_instruction`, `Container.run`);
* a structured-message embedding of the orchestration layer
  (`AgentManager.add_agent`, `get_agent`, `initialize_user_input`,
  `_process_tool_calls`, `_prepare_final_messages`, `run_agent`), in which
  the store/load round trip proved for the string level justifies holding
  the history directly as a list.

Modelling conventions: machine-level details that cannot affect the claims
(Unicode `\uXXXX` escaping of exotic characters by `json.dumps`, float
literals, the vendor SDK network calls) are outside the embedded fragment;
the embedded `dumps` escapes quote, backslash, newline, tab and carriage
return, and the embedded `loads` accepts exactly the corresponding JSON
fragment (integers, strings with those escapes, arrays, objects, booleans,
null, with arbitrary whitespace between tokens).
-/

/-- Character constants, written via code points so that the source text of
this file stays plain. -/
def quoteCh : Char := Char.ofNat 34

/-- Backslash character (code point 92). -/
def backslashCh : Char := Char.ofNat 92

/-- Opening curly brace (code point 123). -/
def lbraceCh : Char := Char.ofNat 123

/-- Closing curly brace (code point 125). -/
def rbraceCh : Char := Char.ofNat 125

/-- Newline character. -/
def nlCh : Char := Char.ofNat 10

/-- Tab character. -/
def tabCh : Char := Char.ofNat 9

/-- Carriage-return character. -/
def crCh : Char := Char.ofNat 13

/-- Apostrophe (single quote, code point 39), used by error strings of
`AgentManager._process_tool_calls`. -/
def aposCh : Char := Char.ofNat 39

/-- Decimal digit test on a character (code points 48–57), as used when
scanning a JSON number. -/
def isDigitCh (c : Char) : Bool := 48 ≤ c.toNat && c.toNat ≤ 57

/-- JSON whitespace test (space, newline, tab, carriage return). -/
def isWsCh (c : Char) : Bool := c = ' ' || c = nlCh || c = tabCh || c = crCh

/-- The character for a single decimal digit value (`0 ≤ d ≤ 9`). -/
def digitCh : Nat → Char
  | 0 => '0' | 1 => '1' | 2 => '2' | 3 => '3' | 4 => '4'
  | 5 => '5' | 6 => '6' | 7 => '7' | 8 => '8' | _ => '9'

mutual
/-- The JSON value universe: the values that survive Python's
`json.dumps` / `json.loads` round trip form exactly this shape (floats are
outside the embedded fragment). Strings are lists of characters. -/
inductive JVal where
  | null : JVal
  | bool (b : Bool) : JVal
  | num (n : Int) : JVal
  | str (s : List Char) : JVal
  | arr (a : JArr) : JVal
  | obj (o : JObj) : JVal
  deriving DecidableEq

/-- A JSON array, as a dedicated list so the mutual induction stays
first-class. -/
inductive JArr where
  | nil : JArr
  | cons (hd : JVal) (tl : JArr) : JArr
  deriving DecidableEq

/-- A JSON object: an ordered association list of key/value pairs (Python
dicts preserve insertion order, which `json.dumps` serializes in order). -/
inductive JObj where
  | nil : JObj
  | cons (k : List Char) (v : JVal) (tl : JObj) : JObj
  deriving DecidableEq
end

/-- Membership of a key in a JSON object (Python's `"k" in message`). -/
def hasKeyJ : JObj → List Char → Bool
  | .nil, _ => false
  | .cons k _ tl, key => k = key || hasKeyJ tl key

/-- Escape of one character inside a serialized JSON string, as
`json.dumps` performs it for the characters in the embedded fragment. -/
def escCh (c : Char) : List Char :=
  if c = quoteCh then [backslashCh, quoteCh]
  else if c = backslashCh then [backslashCh, backslashCh]
  else if c = nlCh then [backslashCh, 'n']
  else if c = tabCh then [backslashCh, 't']
  else if c = crCh then [backslashCh, 'r']
  else [c]

/-- Escape of a whole string body. -/
def escStr : List Char → List Char
  | [] => []
  | c :: rest => escCh c ++ escStr rest

/-- The rendered keyword `null`. -/
def litNull : List Char := ['n', 'u', 'l', 'l']

/-- The rendered keyword `true`. -/
def litTrue : List Char := ['t', 'r', 'u', 'e']

/-- The rendered keyword `false`. -/
def litFalse : List Char := ['f', 'a', 'l', 's', 'e']

/-- Big-endian decimal digits of a natural number (`str(n)` in Python). -/
def natDigits (n : Nat) : List Char :=
  if n = 0 then ['0'] else ((Nat.digits 10 n).reverse).map digitCh

/-- Decimal rendering of an integer, as `json.dumps` prints Python ints. -/
def renderInt (n : Int) : List Char :=
  if n < 0 then '-' :: natDigits n.natAbs else natDigits n.toNat

mutual
/-- Serialization of a JSON value: the embedding of `json.dumps` with
Python's default separators (`", "` between items, `": "` after keys). -/
def renderV : JVal → List Char
  | .null => litNull
  | .bool true => litTrue
  | .bool false => litFalse
  | .num n => renderInt n
  | .str s => quoteCh :: escStr s ++ [quoteCh]
  | .arr .nil => ['[', ']']
  | .arr (.cons h t) => '[' :: renderV h ++ renderArrTail t ++ [']']
  | .obj .nil => [lbraceCh, rbraceCh]
  | .obj (.cons k v t) =>
      lbraceCh :: (quoteCh :: escStr k ++ [quoteCh, ':', ' '] ++ renderV v)
        ++ renderObjTail t ++ [rbraceCh]

/-- Remaining array items, each preceded by `", "`. -/
def renderArrTail : JArr → List Char
  | .nil => []
  | .cons h t => ',' :: ' ' :: renderV h ++ renderArrTail t

/-- Remaining object entries, each preceded by `", "`: quoted key, `": "`,
value. -/
def renderObjTail : JObj → List Char
  | .nil => []
  | .cons k v t =>
      ',' :: ' ' :: (quoteCh :: escStr k ++ [quoteCh, ':', ' '] ++ renderV v)
        ++ renderObjTail t
end

/-- One object entry: quoted key, `": "`, value (the sublist both object
rendering cases share). -/
def renderEntry (k : List Char) (v : JVal) : List Char :=
  quoteCh :: escStr k ++ [quoteCh, ':', ' '] ++ renderV v

/-- `json.dumps`, at the level of character lists. -/
def dumps (v : JVal) : List Char := renderV v

/-- Skip JSON whitespace. -/
def skipWs : List Char → List Char
  | [] => []
  | c :: rest => if isWsCh c then skipWs rest else c :: rest

/-- Un-escape of the character after a backslash inside a JSON string
(`loads` accepts the escapes the embedded `dumps` emits). -/
def unescCh (e : Char) : Option Char :=
  if e = quoteCh then some quoteCh
  else if e = backslashCh then some backslashCh
  else if e = 'n' then some nlCh
  else if e = 't' then some tabCh
  else if e = 'r' then some crCh
  else none

/-- Parse the body of a JSON string after the opening quote; returns the
decoded content and the input after the closing quote. -/
def parseStrBody : List Char → Option (List Char × List Char)
  | [] => none
  | c :: rest =>
    if c = quoteCh then some ([], rest)
    else if c = backslashCh then
      match rest with
      | [] => none
      | e :: rest2 =>
        match unescCh e with
        | none => none
        | some c2 =>
          match parseStrBody rest2 with
          | none => none
          | some (body, r) => some (c2 :: body, r)
    else
      match parseStrBody rest with
      | none => none
      | some (body, r) => some (c :: body, r)

/-- Consume a maximal run of decimal digits, accumulating their value. -/
def parseDigitsAcc (acc : Nat) : List Char → Nat × List Char
  | [] => (acc, [])
  | c :: rest =>
    if isDigitCh c then parseDigitsAcc (10 * acc + (c.toNat - 48)) rest
    else (acc, c :: rest)

/-- Parse a natural number: at least one digit, then a maximal digit run. -/
def parseNatCore : List Char → Option (Nat × List Char)
  | [] => none
  | c :: rest =>
    if isDigitCh c then some (parseDigitsAcc (c.toNat - 48) rest)
    else none

/-- Parse an integer literal (optional minus sign, then digits). -/
def parseNum : List Char → Option (Int × List Char)
  | [] => none
  | c :: rest =>
    if c = '-' then
      match parseNatCore rest with
      | none => none
      | some (m, r) => some (-(m : Int), r)
    else
      match parseNatCore (c :: rest) with
      | none => none
      | some (m, r) => some ((m : Int), r)

/-- Match an exact literal tail (used for `null` / `true` / `false`). -/
def expectLit : List Char → List Char → Option (List Char)
  | [], s => some s
  | _ :: _, [] => none
  | p :: ps, c :: rest => if c = p then expectLit ps rest else none

mutual
/-- Fueled recursive-descent JSON value parser: the embedding of
`json.loads`'s grammar on the embedded fragment. Fuel only bounds the
nesting recursion; `loads` supplies enough fuel for its input. -/
def parseVal : Nat → List Char → Option (JVal × List Char)
  | 0, _ => none
  | fuel + 1, s =>
    match skipWs s with
    | [] => none
    | c :: rest =>
      if c = 'n' then
        match expectLit ['u', 'l', 'l'] rest with
        | none => none
        | some r => some (.null, r)
      else if c = 't' then
        match expectLit ['r', 'u', 'e'] rest with
        | none => none
        | some r => some (.bool true, r)
      else if c = 'f' then
        match expectLit ['a', 'l', 's', 'e'] rest with
        | none => none
        | some r => some (.bool false, r)
      else if c = quoteCh then
        match parseStrBody rest with
        | none => none
        | some (body, r) => some (.str body, r)
      else if c = '[' then
        match parseArrBody fuel rest with
        | none => none
        | some (a, r) => some (.arr a, r)
      else if c = lbraceCh then
        match parseObjBody fuel rest with
        | none => none
        | some (o, r) => some (.obj o, r)
      else
        match parseNum (c :: rest) with
        | none => none
        | some (n, r) => some (.num n, r)

/-- Array body after `[`: empty array or first element then separators. -/
def parseArrBody : Nat → List Char → Option (JArr × List Char)
  | 0, _ => none
  | fuel + 1, s =>
    match skipWs s with
    | [] => none
    | c :: rest =>
      if c = ']' then some (.nil, rest)
      else
        match parseVal fuel (c :: rest) with
        | none => none
        | some (v, r) =>
          match parseArrSep fuel r with
          | none => none
          | some (tl, r2) => some (.cons v tl, r2)

/-- After an array element: either `]` ends the array or `,` precedes the
next element. -/
def parseArrSep : Nat → List Char → Option (JArr × List Char)
  | 0, _ => none
  | fuel + 1, s =>
    match skipWs s with
    | [] => none
    | c :: rest =>
      if c = ']' then some (.nil, rest)
      else if c = ',' then
        match parseVal fuel rest with
        | none => none
        | some (v, r) =>
          match parseArrSep fuel r with
          | none => none
          | some (tl, r2) => some (.cons v tl, r2)
      else none

/-- One `"key": value` member. -/
def parseMember : Nat → List Char → Option ((List Char × JVal) × List Char)
  | 0, _ => none
  | fuel + 1, s =>
    match skipWs s with
    | [] => none
    | c :: rest =>
      if c = quoteCh then
        match parseStrBody rest with
        | none => none
        | some (key, r) =>
          match skipWs r with
          | [] => none
          | c2 :: r2 =>
            if c2 = ':' then
              match parseVal fuel r2 with
              | none => none
              | some (v, r3) => some ((key, v), r3)
            else none
      else none

/-- Object body after the opening brace. -/
def parseObjBody : Nat → List Char → Option (JObj × List Char)
  | 0, _ => none
  | fuel + 1, s =>
    match skipWs s with
    | [] => none
    | c :: rest =>
      if c = rbraceCh then some (.nil, rest)
      else
        match parseMember fuel (c :: rest) with
        | none => none
        | some ((k, v), r) =>
          match parseObjSep fuel r with
          | none => none
          | some (tl, r2) => some (.cons k v tl, r2)

/-- After an object member: either the closing brace or `,` and the next
member. -/
def parseObjSep : Nat → List Char → Option (JObj × List Char)
  | 0, _ => none
  | fuel + 1, s =>
    match skipWs s with
    | [] => none
    | c :: rest =>
      if c = rbraceCh then some (.nil, rest)
      else if c = ',' then
        match parseMember fuel rest with
        | none => none
        | some ((k, v), r) =>
          match parseObjSep fuel r with
          | none => none
          | some (tl, r2) => some (.cons k v tl, r2)
      else none
end

/-- `json.loads`: parse a full value and reject trailing garbage. The fuel
`s.length + 2` dominates the nesting depth of any value the input can
denote (proved below for round trips). -/
def loads (s : List Char) : Option JVal :=
  match parseVal (s.length + 2) s with
  | none => none
  | some (v, rest) =>
    match skipWs rest with
    | [] => some v
    | _ :: _ => none

/-- True when the input does not begin with a decimal digit: the boundary
condition after a rendered number (in rendered JSON a number is always
followed by a separator, a closing bracket, or the end of input). -/
def noDigitHead : List Char → Bool
  | [] => true
  | c :: _ => !isDigitCh c

mutual
/-- Fuel sufficient for `parseVal` on the rendering of a value. -/
def jsizeV : JVal → Nat
  | .null => 1
  | .bool _ => 1
  | .num _ => 1
  | .str _ => 1
  | .arr .nil => 2
  | .arr (.cons h t) => 2 + max (jsizeV h) (jsizeA t)
  | .obj .nil => 2
  | .obj (.cons _ v t) => 2 + max (jsizeV v + 1) (jsizeO t)

/-- Fuel sufficient for `parseArrSep` on a rendered array tail. -/
def jsizeA : JArr → Nat
  | .nil => 1
  | .cons h t => 1 + max (jsizeV h) (jsizeA t)

/-- Fuel sufficient for `parseObjSep` on a rendered object tail. -/
def jsizeO : JObj → Nat
  | .nil => 1
  | .cons _ v t => 1 + max (jsizeV v + 1) (jsizeO t)
end

/-!
String-level embedding of the message storage layer.

`Model.__init__` sets `self.messages = None`; `Model.set_messages`
validates its argument and stores `json.dumps(messages)` — a *string* —
and `Model.get_messages` parses it back with `json.loads`.
-/

/-- The Python exceptions that the embedded fragment can raise. -/
inductive PyErrA where
  | typeError : PyErrA
  | valueError : PyErrA
  | attributeError : PyErrA
  | dockerException (msg : List Char) : PyErrA
  deriving DecidableEq

/-- The state of a `Model` that matters to the claims: the serialized
message store (`self.messages : Optional[str]`). -/
structure ModelJ where
  messages : Option (List Char)
  deriving DecidableEq

/-- One message dictionary `{"role": role, "content": content}`. -/
def msgObjJ (role content : List Char) : JVal :=
  .obj (.cons "role".toList (.str role)
    (.cons "content".toList (.str content) .nil))

/-- The validation `Model.set_messages` performs on one element: it must be
a dict containing both a `role` and a `content` key. -/
def isValidMsgJ : JVal → Bool
  | .obj o => hasKeyJ o "role".toList && hasKeyJ o "content".toList
  | _ => false

/-- Validation of the whole message list. -/
def validMsgsJ : JArr → Bool
  | .nil => true
  | .cons h t => isValidMsgJ h && validMsgsJ t

/-- `Model.set_messages`: `TypeError` unless the argument is a list,
`ValueError` unless every element is a dict with `role` and `content`,
otherwise store `json.dumps(messages)`. -/
def setMessagesJ (st : ModelJ) (v : JVal) : Except PyErrA ModelJ :=
  match v with
  | .arr ms =>
      if validMsgsJ ms then .ok { st with messages := some (dumps (.arr ms)) }
      else .error .valueError
  | _ => .error .typeError

/-- `Model.get_messages`: `None` when the store is `None` or the empty
string, otherwise `json.loads` of the stored string. (A stored string that
does not parse would raise in Python; such a store is unreachable through
`set_messages`, and the embedding folds that case into `none`.) -/
def getMessagesJ (st : ModelJ) : Option JVal :=
  match st.messages with
  | none => none
  | some [] => none
  | some (c :: rest) => loads (c :: rest)

/-- The message list `[{"role": "system", "content": t}]`. -/
def sysListJ (t : List Char) : JVal :=
  .arr (.cons (msgObjJ "system".toList t) .nil)

/-- `OpenAi.set_system_message`: `set_messages` on the singleton system
list — it does not consult the previous store at all. -/
def setSystemMessageJ (st : ModelJ) (t : List Char) : Except PyErrA ModelJ :=
  setMessagesJ st (sysListJ t)

/-- Append one value at the end of a JSON array. -/
def appendArrJ : JArr → JVal → JArr
  | .nil, v => .cons v .nil
  | .cons h t, v => .cons h (appendArrJ t v)

/-- `OpenAi.set_user_message` for a string message: current messages (or
the empty list when unset) with `{"role": "user", "content": t}`
appended, passed through `set_messages`. A stored non-list JSON value
cannot arise from the embedded operations, so that case defaults to the
empty list. -/
def setUserMessageJ (st : ModelJ) (t : List Char) : Except PyErrA ModelJ :=
  let cur : JArr :=
    match getMessagesJ st with
    | some (.arr ms) => ms
    | _ => .nil
  setMessagesJ st (.arr (appendArrJ cur (msgObjJ "user".toList t)))

/-- The slice of `Agent` state the storage-layer claims touch: the name,
the instruction, and the owned model's serialized message store. -/
structure AgentJ where
  name : List Char
  instruction : List Char
  modelMessages : Option (List Char)
  deriving DecidableEq

/-- `Agent.set_instruction`: assigns `self.instruction`, then — when
`self.model.messages` is truthy — iterates it looking for a system
message. The store is the *serialized string*, so the loop's first element
is a one-character `str`, and `message.get("role")` raises
`AttributeError` at once; the already-performed instruction assignment is
kept. When the store is `None` or the empty string the loop body never
runs and the call returns normally. -/
def setInstructionJ (ag : AgentJ) (instr : List Char) : AgentJ × Option PyErrA :=
  let ag2 := { ag with instruction := instr }
  match ag.modelMessages with
  | none => (ag2, none)
  | some [] => (ag2, none)
  | some (_ :: _) => (ag2, some .attributeError)

/-- The captured output of the container process: `bytes` or `str`. -/
inductive ProcOutA where
  | bytes (s : List Char) : ProcOutA
  | text (s : List Char) : ProcOutA
  deriving DecidableEq

/-- Outcome of the external one-shot container execution
(`self.client.containers.run(...)`): its captured output, or a
`DockerException`. -/
inductive ProcResA where
  | success (out : ProcOutA) : ProcResA
  | dockerFail (msg : List Char) : ProcResA
  deriving DecidableEq

/-- A `return_to` configuration dict: the optional `agent` key and the
optional `instruction` template key. -/
structure ReturnToA where
  agent : Option AgentJ
  instruction : Option (List Char)
  deriving DecidableEq

/-- The slice of `Container` state `run` uses: the tool name, the outcome
of the (external) process execution, and the `return_to` configuration.
The image/command/environment only parameterize that external process. -/
structure ContainerA where
  name : List Char
  proc : ProcResA
  returnTo : Option ReturnToA
  deriving DecidableEq

/-- `if isinstance(result, bytes): result = result.decode("utf-8")`. -/
def decodeOutA : ProcOutA → List Char
  | .bytes s => s
  | .text s => s

/-- The literal `{result}` placeholder, built character-wise. -/
def resultPH : List Char :=
  lbraceCh :: 'r' :: 'e' :: 's' :: 'u' :: 'l' :: 't' :: rbraceCh :: []

/-- Leftmost, non-overlapping replacement of the eight-character
placeholder, as Python's `str.replace` performs it. -/
def replacePH (repl : List Char) : List Char → List Char
  | c0 :: c1 :: c2 :: c3 :: c4 :: c5 :: c6 :: c7 :: rest =>
      if [c0, c1, c2, c3, c4, c5, c6, c7] = resultPH then
        repl ++ replacePH repl rest
      else
        c0 :: replacePH repl (c1 :: c2 :: c3 :: c4 :: c5 :: c6 :: c7 :: rest)
  | s => s

/-- `replace_placeholder(instruction, result)`: substitute the decoded
result for `{result}`. (At its call site in `Container.run` the result has
already been decoded from bytes.) -/
def replacePlaceholder (instruction result : List Char) : List Char :=
  replacePH result instruction

/-- What `Container.run` returns: a decoded output string, or the
`return_to` target agent. -/
inductive ContRetA where
  | str (s : List Char) : ContRetA
  | agent (a : AgentJ) : ContRetA
  deriving DecidableEq

/-- `Container.run`: on process failure re-raise as
`DockerException("Error running container: ...")`; on success decode the
output, and when `return_to` holds an `agent` key install the templated
instruction via `set_instruction` (whose `AttributeError`, when it fires,
propagates — only `DockerException` is caught) and return the agent
object; otherwise return the decoded text. `arguments` is merged into the
environment of the external process, which the `proc` field abstracts. -/
def containerRunA (c : ContainerA) (arguments : JVal) : Except PyErrA ContRetA :=
  match c.proc with
  | .dockerFail m =>
      .error (.dockerException ("Error running container: ".toList ++ m))
  | .success out =>
    let result := decodeOutA out
    match c.returnTo with
    | none => .ok (.str result)
    | some rt =>
      match rt.agent with
      | none => .ok (.str result)
      | some ag =>
        match rt.instruction with
        | none => .ok (.agent ag)
        | some tmpl =>
          match setInstructionJ ag (replacePlaceholder tmpl result) with
          | (ag2, none) => .ok (.agent ag2)
          | (_, some e) => .error e

/-!
Orchestration-level embedding (`AgentManager.py`).

`run_agent` and `_process_tool_calls` only ever touch the history through
`agent.get_messages()` / `agent.set_messages(...)`, i.e. through one
`json.loads` / `json.dumps` round trip, proved lossless below for every
well-formed message list. The orchestration layer therefore holds the
history directly as a `List MsgB`; an agent's stored history `some l`
corresponds to the storage layer's `some (dumps l)` — in particular
`some l` is truthy at the string level even for `l = []`, because
`json.dumps([])` is the non-empty string of brackets.

The model call itself (`OpenAi.generate_response`) is the environment: it
is passed in as an `oracle` function from the history the adapter would
send to the canonical `{content, tool_calls}` response. Tool callables are
likewise environment: a tool is its name plus a function from the parsed
arguments to an outcome (a returned value already rendered through
`str(...)`, a returned `Agent`, or a raised exception's message).
-/

/-- The argument payload of one wire tool call: OpenAI delivers a JSON
string, other adapters may deliver an already-structured object;
`_process_tool_calls` handles both. -/
inductive ArgPayload where
  | raw (s : List Char) : ArgPayload
  | obj (j : JVal) : ArgPayload
  deriving DecidableEq

/-- One canonical tool call `{id, name, arguments}` — the shape
`get_keys_in_tool_output` extracts (for the OpenAi adapter, verbatim the
fields of the vendor tool-call object). -/
structure ToolCallW where
  id : String
  name : String
  arguments : ArgPayload
  deriving DecidableEq

/-- One history message in parsed form: `role` and `content` are always
present (as `Model.set_messages` requires); assistant messages may carry
tool calls, tool messages carry the `tool_call_id` correlation field. -/
structure MsgB where
  role : String
  content : String
  toolCalls : List ToolCallW
  toolCallId : Option String
  deriving DecidableEq

/-- The canonical response `{content, tool_calls}` returned by
`generate_response`; `content` may be `None`, and an absent/`None`
`tool_calls` field is represented by the empty list (both are falsy at the
`response.get("tool_calls")` check). -/
structure RespB where
  content : Option String
  toolCalls : List ToolCallW
  deriving DecidableEq

/-- One executed-tool record `{id, tool_result, name}`. -/
structure ToolRespB where
  id : String
  tool_result : String
  name : String
  deriving DecidableEq

/-- Outcome of the external container process, orchestration layer. -/
inductive ProcResB where
  | success (out : ProcOutA) : ProcResB
  | dockerFail (msg : String) : ProcResB
  deriving DecidableEq

mutual
/-- An `Agent`: name, instruction, tools, and the owned model's message
store (`None` until first set; see the module comment for why the stored
string is represented by the parsed list). -/
inductive AgentB where
  | mk (name : String) (instruction : String) (tools : ToolsB)
      (messages : Option (List MsgB)) : AgentB

/-- The agent's ordered tool list. -/
inductive ToolsB where
  | nil : ToolsB
  | cons (t : ToolB) (ts : ToolsB) : ToolsB

/-- A tool: a named Python callable (its behaviour a function from parsed
arguments to an outcome), or a `Container`. -/
inductive ToolB where
  | fn (name : String) (impl : JVal → FnOut) : ToolB
  | container (c : ContainerB) : ToolB

/-- What invoking a callable tool does: return a value (recorded after
`str(...)`), return an `Agent` (the handoff signal), or raise (recorded as
`str(e)`). -/
inductive FnOut where
  | ret (s : String) : FnOut
  | agent (a : AgentB) : FnOut
  | raiseMsg (msg : String) : FnOut

/-- A `Container` at the orchestration layer: tool name, external process
outcome, optional `return_to` configuration. -/
inductive ContainerB where
  | mk (name : String) (proc : ProcResB) (returnTo : OptReturnToB) : ContainerB

/-- Optional `return_to` dict. -/
inductive OptReturnToB where
  | none : OptReturnToB
  | some (agent : OptAgentB) (instruction : Option String) : OptReturnToB

/-- Optional `agent` key of a `return_to` dict. -/
inductive OptAgentB where
  | none : OptAgentB
  | some (a : AgentB) : OptAgentB
end

/-- Name of an agent. -/
def AgentB.name : AgentB → String
  | .mk n _ _ _ => n

/-- Instruction of an agent. -/
def AgentB.instruction : AgentB → String
  | .mk _ i _ _ => i

/-- Tool list of an agent. -/
def AgentB.tools : AgentB → ToolsB
  | .mk _ _ ts _ => ts

/-- Message store of an agent's model. -/
def AgentB.messages : AgentB → Option (List MsgB)
  | .mk _ _ _ m => m

/-- Replace the message store of an agent's model. -/
def AgentB.withMessages : AgentB → Option (List MsgB) → AgentB
  | .mk n i ts _, m => .mk n i ts m

/-- Replace the instruction of an agent. -/
def AgentB.withInstruction : AgentB → String → AgentB
  | .mk n _ ts m, i => .mk n i ts m

/-- Name of a container. -/
def ContainerB.name : ContainerB → String
  | .mk n _ _ => n

/-- `Agent.set_instruction` at the orchestration layer: the instruction is
assigned; then, when the model's store is truthy — i.e. any `some l`,
since the stored string `json.dumps(l)` is non-empty even for `l = []` —
iterating that string raises `AttributeError` (see `setInstructionJ`). -/
def setInstructionB (ag : AgentB) (instr : String) : AgentB × Option String :=
  let ag2 := ag.withInstruction instr
  match ag.messages with
  | none => (ag2, none)
  | some _ => (ag2, some "str object has no attribute get")

/-- `{"role": "system", "content": t}`. -/
def sysMsgB (t : String) : MsgB := ⟨"system", t, [], none⟩

/-- `{"role": "user", "content": t}`. -/
def userMsgB (t : String) : MsgB := ⟨"user", t, [], none⟩

/-- `OpenAi.set_system_message` at the orchestration layer: the whole
store becomes the singleton system list. -/
def setSystemMessageB (ag : AgentB) (t : String) : AgentB :=
  ag.withMessages (some [sysMsgB t])

/-- `OpenAi.set_user_message` (string case): append the user message to
the current messages (empty when unset). -/
def setUserMessageB (ag : AgentB) (t : String) : AgentB :=
  ag.withMessages (some ((ag.messages.getD []) ++ [userMsgB t]))

/-- `OpenAi.get_assistant_message`: role `assistant`, `content or ""`, and
the response's tool calls re-rendered through `_get_tool_call_format`,
which carries `id`/`name`/`arguments` over verbatim. -/
def assistantMsgB (r : RespB) : MsgB :=
  ⟨"assistant", r.content.getD "", r.toolCalls, none⟩

/-- `OpenAi.get_tool_message`: one `role:tool` message per executed tool,
with the result as content and the originating call id. -/
def toolMsgsB (rs : List ToolRespB) : List MsgB :=
  rs.map (fun tr => ⟨"tool", tr.tool_result, [], some tr.id⟩)

/-- What `Container.run` produces at the orchestration layer, when it does
not raise. -/
inductive ContRetB where
  | str (s : String) : ContRetB
  | agent (a : AgentB) : ContRetB

/-- `Container.run` at the orchestration layer; mirrors `containerRunA`
(process failure re-raised as `DockerException` text, `return_to`
handling, `set_instruction` with its possible `AttributeError`). String
content goes through `String.append`; the placeholder substitution on
`String` reuses the character-list model. -/
def containerRunB (c : ContainerB) (arguments : JVal) : Except String ContRetB :=
  match c with
  | .mk _ proc returnTo =>
    match proc with
    | .dockerFail m => .error ("Error running container: " ++ m)
    | .success out =>
      let result : String := ⟨decodeOutA out⟩
      match returnTo with
      | .none => .ok (.str result)
      | .some optAg instrTmpl =>
        match optAg with
        | .none => .ok (.str result)
        | .some ag =>
          match instrTmpl with
          | none => .ok (.agent ag)
          | some tmpl =>
            match setInstructionB ag ⟨replacePlaceholder tmpl.toList result.toList⟩ with
            | (ag2, none) => .ok (.agent ag2)
            | (_, some e) => .error e

/-- Result of scanning the agent's tool list for one call, mirroring the
inner `for tool in agent.tools` loop of `_process_tool_calls`: no tool
matched; a matched tool produced a `tool_result` string (normal return or
caught exception); or a matched tool returned an `Agent`. -/
inductive DispatchB where
  | notFound : DispatchB
  | resp (tool_result : String) : DispatchB
  | handoff (a : AgentB) : DispatchB

/-- The inner tool-scan loop: first tool whose name matches is invoked
(callables by `__name__`, containers by `.name`); its exception, if any,
is caught and rendered as the tool-result string; an `Agent` return value
becomes the handoff signal. -/
def findAndRun : ToolsB → String → JVal → DispatchB
  | .nil, _, _ => .notFound
  | .cons t rest, fname, args =>
    match t with
    | .fn n impl =>
      if n = fname then
        match impl args with
        | .ret s => .resp s
        | .agent a => .handoff a
        | .raiseMsg m => .resp ("Error executing tool: " ++ m)
      else findAndRun rest fname args
    | .container c =>
      if c.name = fname then
        match containerRunB c args with
        | .ok (.str s) => .resp s
        | .ok (.agent a) => .handoff a
        | .error e => .resp ("Error executing tool: " ++ e)
      else findAndRun rest fname args

/-- The value `_process_tool_calls` returns: the accumulated tool
responses, or the singleton handoff marker `[{"agent": agent}]` (which
discards responses accumulated before it). -/
inductive PTCB where
  | responses (rs : List ToolRespB) : PTCB
  | handoffR (a : AgentB) : PTCB
  deriving Inhabited

/-- Prepend a tool response to a dispatch result — a no-op on the handoff
marker, which `_process_tool_calls` returns as a fresh singleton list. -/
def prependResp (r : ToolRespB) : PTCB → PTCB
  | .responses l => .responses (r :: l)
  | .handoffR a => .handoffR a

/-- The `'` -quoted not-found message `Error: Tool '<name>' not found`. -/
def toolNotFoundMsg (fname : String) : String :=
  "Error: Tool " ++ String.singleton aposCh ++ fname ++
    String.singleton aposCh ++ " not found"

/-- Argument parsing of one canonicalized tool call: `json.loads` when the
payload is a string (a `JSONDecodeError` is `none`), pass-through
otherwise. -/
def parsePayloadB : ArgPayload → Option JVal
  | .raw s => loads s
  | .obj j => some j

/-- `AgentManager._process_tool_calls`, with an instrumentation log: the
second component records the names of the calls whose matched tool body
was actually invoked, in order (skipped-JSON and not-found calls do not
execute a tool). An `Agent` return value makes the call return the
handoff marker immediately: the remaining calls are never examined. -/
def processToolCalls (ag : AgentB) : List ToolCallW → PTCB × List String
  | [] => (.responses [], [])
  | tc :: rest =>
    match parsePayloadB tc.arguments with
    | none =>
      let pr := processToolCalls ag rest
      (prependResp ⟨tc.id, "Error: Invalid JSON in arguments", tc.name⟩ pr.1,
       pr.2)
    | some args =>
      match findAndRun ag.tools tc.name args with
      | .handoff a => (.handoffR a, [tc.name])
      | .resp s =>
        let pr := processToolCalls ag rest
        (prependResp ⟨tc.id, s, tc.name⟩ pr.1, tc.name :: pr.2)
      | .notFound =>
        let pr := processToolCalls ag rest
        (prependResp ⟨tc.id, toolNotFoundMsg tc.name, tc.name⟩ pr.1, pr.2)

/-- The manager's registry: an ordered list of agents. -/
abbrev RegistryB : Type := List AgentB

/-- `AgentManager.get_agent`: linear scan, first agent of the name wins;
`(None, None)` becomes `none`. -/
def getAgentB : RegistryB → String → Option (Nat × AgentB)
  | [], _ => none
  | ag :: rest, n =>
    if ag.name = n then some (0, ag)
    else (getAgentB rest n).map (fun p => (p.1 + 1, p.2))

/-- `AgentManager.add_agent`: append unless an agent of that name already
exists. (The `isinstance` guard is enforced by typing.) -/
def addAgentB (reg : RegistryB) (ag : AgentB) : RegistryB :=
  match getAgentB reg ag.name with
  | some _ => reg
  | none => reg ++ [ag]

/-- Number of registered agents carrying a name. -/
def countNameB (reg : RegistryB) (n : String) : Nat :=
  List.length (reg.filter (fun ag => ag.name = n))

/-- The agent state `initialize_user_input` leaves in the registry slot:
system message set from the instruction (wiping the store — see
`setSystemMessageB`), tools re-propagated to the adapter kwargs (no
history effect), then the user message appended when input is present. -/
def initAgentB (ag : AgentB) (input : Option String) : AgentB :=
  let ag1 := setSystemMessageB ag ag.instruction
  match input with
  | none => ag1
  | some u => setUserMessageB ag1 u

/-- The history `initialize_user_input` leaves in the model store. -/
def initHistB (ag : AgentB) (input : Option String) : List MsgB :=
  sysMsgB ag.instruction :: (match input with | none => [] | some u => [userMsgB u])

/-- Result of `run_agent`: the returned response together with the final
registry; a raised error (`ValueError` for an unknown agent, an invalid
state on a missing history); or fuel exhaustion of the embedding (the
source recursion is unbounded). -/
inductive RunResB where
  | ok (r : RespB) (reg : RegistryB) : RunResB
  | err (msg : String) : RunResB
  | fuelOut : RunResB

/-- `AgentManager.run_agent`, instrumented with a trace: the second
component records, chronologically, the history passed to the model at
each `agent.get_response()` call (including those of recursive calls).

Step for step: initialize the named agent (raising for an unknown name);
take a response; return it when it carries no tool calls; otherwise build
`current_messages = stored ++ [assistant message]`, dispatch the tool
calls; on a handoff register the returned agent when its name is unknown
and recurse into that name with the *original* input; otherwise persist
`current_messages ++ tool messages`, take the follow-up response, and
return it unless it again carries tool calls, in which case recurse with
the same name and `None` input. -/
def runAgentB (oracle : List MsgB → RespB) :
    Nat → RegistryB → String → Option String → RunResB × List (List MsgB)
  | 0, _, _, _ => (.fuelOut, [])
  | fuel + 1, reg, name, input =>
    match getAgentB reg name with
    | none => (.err "No agent found with name", [])
    | some (i, ag0) =>
      let ag1 := initAgentB ag0 input
      let reg1 := reg.set i ag1
      match ag1.messages with
      | none => (.err "Messages not set in the model", [])
      | some hist1 =>
        let resp := oracle hist1
        if resp.toolCalls = [] then (.ok resp reg1, [hist1])
        else
          let current1 := hist1 ++ [assistantMsgB resp]
          match processToolCalls ag1 resp.toolCalls with
          | (.handoffR newAgent, _) =>
            let reg2 :=
              match getAgentB reg1 newAgent.name with
              | some _ => reg1
              | none => addAgentB reg1 newAgent
            let rr := runAgentB oracle fuel reg2 newAgent.name input
            (rr.1, hist1 :: rr.2)
          | (.responses rs, _) =>
            let current2 := current1 ++ toolMsgsB rs
            let ag2 := ag1.withMessages (some current2)
            let reg2 := reg1.set i ag2
            let resp2 := oracle current2
            if resp2.toolCalls = [] then (.ok resp2 reg2, [hist1, current2])
            else
              let rr := runAgentB oracle fuel reg2 name none
              (rr.1, hist1 :: current2 :: rr.2)

/-- The message list `initialize_user_input` leaves stored: the system
message, then the user message when input is present. -/
def initListJ (t : List Char) (input : Option (List Char)) : JVal :=
  .arr (.cons (msgObjJ "system".toList t)
    (match input with
     | none => .nil
     | some u => .cons (msgObjJ "user".toList u) .nil))

/-- The storage-layer effect of `initialize_user_input` on the agent's
model: `set_system_message(instruction)` then, when input is present,
`set_user_message(input)`. (`set_tools` touches only adapter kwargs.) -/
def initializeMessagesJ (st : ModelJ) (instr : List Char)
    (input : Option (List Char)) : Except PyErrA ModelJ := do
  let st1 ← setSystemMessageJ st instr
  match input with
  | none => pure st1
  | some u => setUserMessageJ st1 u

/-- Fixture: the scenario-D target agent `B`, not yet run (no stored
history). -/
def agentBFresh : AgentJ := ⟨"B".toList, "initial".toList, none⟩

/-- Fixture: agent `B` after it has been run once (its model store holds
the serialized history of a system message). -/
def agentBUsed : AgentJ :=
  ⟨"B".toList, "initial".toList, some (dumps (sysListJ "initial".toList))⟩

/-- Fixture: the scenario-D instruction template `Use: {result}`. -/
def templD : List Char := "Use: ".toList ++ resultPH

/-- Fixture: the scenario-D container, whose process outputs the bytes
`42`, returning to the fresh agent `B`. -/
def contD : ContainerA :=
  ⟨"calc".toList, .success (.bytes "42".toList), some ⟨some agentBFresh, some templD⟩⟩

/-- Fixture: the same container, but returning to the already-run agent
`B`. -/
def contDUsed : ContainerA :=
  ⟨"calc".toList, .success (.bytes "42".toList), some ⟨some agentBUsed, some templD⟩⟩

/-- Fixture: a well-formed two-message history. -/
def demoMsgsOk : JArr :=
  .cons (msgObjJ "user".toList "hi".toList)
    (.cons (msgObjJ "assistant".toList "ok".toList) .nil)

/-- Fixture: a message list whose element lacks the `content` key. -/
def demoMsgBad : JArr :=
  .cons (.obj (.cons "role".toList (.str "user".toList) .nil)) .nil

/-- A registry built by a sequence of `add_agent` calls starting from the
empty manager. -/
def registryOfB (l : List AgentB) : RegistryB := l.foldl addAgentB []

/-- Fixture: a tool-free response oracle that always answers `hi`. -/
def oracleEcho : List MsgB → RespB := fun _ => ⟨some "hi", []⟩

/-- Fixture: the scenario-A agent with no tools. -/
def echoAg : AgentB := .mk "echo" "be brief" .nil none

/-- Fixture: an `add` tool that returns (the stringification of) `5`. -/
def addToolB : ToolB := .fn "add" (fun _ => .ret "5")

/-- Fixture: the scenario-B calculator agent. -/
def calcAgB : AgentB := .mk "calc" "inst" (.cons addToolB .nil) none

/-- Fixture: first tool call of the C2 scenario. -/
def tcC2a : ToolCallW := ⟨"call1", "add", .obj (.obj .nil)⟩

/-- Fixture: follow-up tool call of the C2 scenario. -/
def tcC2b : ToolCallW := ⟨"call2", "add", .obj (.obj .nil)⟩

/-- Fixture: C2 scenario responses — a tool-call response for the initial
history, a second tool-call response for the post-tool history, a plain
answer otherwise. -/
def oracleC2 : List MsgB → RespB := fun h =>
  if h.length = 2 then ⟨some "", [tcC2a]⟩
  else if h.length = 4 then ⟨some "", [tcC2b]⟩
  else ⟨some "done", []⟩

/-- Fixture: a tool call whose arguments are not valid JSON. -/
def tcBadJson : ToolCallW := ⟨"callbad", "add", .raw "not json".toList⟩

/-- Fixture: C4 scenario responses — the bad-JSON tool call for the
initial history, a plain answer afterwards. -/
def oracleC4 : List MsgB → RespB := fun h =>
  if h.length = 2 then ⟨some "", [tcBadJson]⟩ else ⟨some "fine", []⟩

/-- Fixture: a tool whose body raises `ZeroDivisionError`. -/
def boomToolB : ToolB := .fn "boom" (fun _ => .raiseMsg "division by zero")

/-- Fixture: the scenario-C agent holding the raising tool. -/
def boomAgB : AgentB := .mk "crash" "inst" (.cons boomToolB .nil) none

/-- Fixture: a call to the raising tool. -/
def tcBoom : ToolCallW := ⟨"callboom", "boom", .obj (.obj .nil)⟩

/-- Fixture: C5 scenario responses. -/
def oracleC5 : List MsgB → RespB := fun h =>
  if h.length = 2 then ⟨some "", [tcBoom]⟩ else ⟨some "fine", []⟩

/-- Fixture: the agent a handoff tool returns. -/
def handedAgB : AgentB := .mk "billing" "handle billing" .nil none

/-- Fixture: a tool returning an `Agent` (the handoff signal). -/
def handToolB : ToolB := .fn "hand" (fun _ => .agent handedAgB)

/-- Fixture: the triage agent owning the handoff tool. -/
def triageAgB : AgentB := .mk "triage" "route" (.cons handToolB .nil) none

/-- Fixture: the handoff tool call. -/
def tcHand : ToolCallW := ⟨"callhand", "hand", .obj (.obj .nil)⟩

/-- Fixture: a second tool call in the same batch, never reached. -/
def tcAfter : ToolCallW := ⟨"callafter", "add", .obj (.obj .nil)⟩

/-- Fixture: C1 scenario responses — a two-call batch whose first call
hands off. -/
def oracleC1 : List MsgB → RespB := fun h =>
  if h.length = 2 then ⟨some "", [tcHand, tcAfter]⟩ else ⟨some "done", []⟩

/-- The history `run_agent` persists after dispatching one batch: initial
history, assistant message, then the tool-result messages. -/
def histAfterTools (ag : AgentB) (input : Option String) (resp : RespB)
    (rs : List ToolRespB) : List MsgB :=
  (initHistB ag input ++ [assistantMsgB resp]) ++ toolMsgsB rs

/-!
Round trip of the embedded serialization: `loads (dumps v) = some v`.
-/

/-- A digit character is not equal to any concrete non-digit character. -/
theorem ne_of_digit {c x : Char} (h : isDigitCh c = true)
    (hx : isDigitCh x = false) : ¬(c = x) := by
  intro he
  rw [he, hx] at h
  cases h

/-- A digit character is not JSON whitespace. -/
theorem isWsCh_eq_false_of_digit {c : Char} (h : isDigitCh c = true) :
    isWsCh c = false := by
  simp only [isWsCh, Bool.or_eq_false_iff, decide_eq_false_iff_not]
  refine ⟨⟨⟨?_, ?_⟩, ?_⟩, ?_⟩ <;> exact ne_of_digit h (by decide)

/-- `digitCh` of a digit value is a digit character. -/
theorem isDigitCh_digitCh {d : Nat} (h : d < 10) :
    isDigitCh (digitCh d) = true := by
  interval_cases d <;> decide

/-- `digitCh` inverts back to the digit value. -/
theorem digitCh_toNat {d : Nat} (h : d < 10) : (digitCh d).toNat - 48 = d := by
  interval_cases d <;> decide

/-- Matching a literal against itself followed by anything succeeds. -/
theorem expectLit_append (p rest : List Char) :
    expectLit p (p ++ rest) = some rest := by
  induction p with
  | nil => rfl
  | cons c cs ih => simp [expectLit, ih]

/-- `skipWs` leaves a non-whitespace head alone. -/
theorem skipWs_cons_of_not_ws {c : Char} (h : isWsCh c = false)
    (s : List Char) : skipWs (c :: s) = c :: s := by
  simp [skipWs, h]

/-- `skipWs` absorbs a leading space. -/
theorem skipWs_space (s : List Char) : skipWs (' ' :: s) = skipWs s := by
  simp [skipWs, show isWsCh ' ' = true by decide]

/-- `parseVal` ignores a leading space. -/
theorem parseVal_space (f : Nat) (s : List Char) :
    parseVal f (' ' :: s) = parseVal f s := by
  cases f with
  | zero => rfl
  | succ f => simp only [parseVal, skipWs_space]

/-- String bodies parse back: the escaped content followed by the closing
quote and anything else yields the content and that remainder. -/
theorem parseStrBody_esc (s : List Char) :
    ∀ rest, parseStrBody (escStr s ++ quoteCh :: rest) = some (s, rest) := by
  induction s with
  | nil =>
      intro rest
      show parseStrBody (quoteCh :: rest) = _
      rw [parseStrBody.eq_def]
      simp
  | cons c tail ih =>
      intro rest
      show parseStrBody ((escCh c ++ escStr tail) ++ quoteCh :: rest) = _
      unfold escCh
      split_ifs with h1 h2 h3 h4 h5
      · subst h1
        rw [List.cons_append, List.cons_append, parseStrBody.eq_def]
        simp [show ¬(backslashCh = quoteCh) by decide, unescCh, ih]
      · subst h2
        rw [List.cons_append, List.cons_append, parseStrBody.eq_def]
        simp [show ¬(backslashCh = quoteCh) by decide, unescCh, ih]
      · subst h3
        rw [List.cons_append, List.cons_append, parseStrBody.eq_def]
        simp [show ¬(backslashCh = quoteCh) by decide, unescCh,
          show ¬('n' = quoteCh) by decide,
          show ¬('n' = backslashCh) by decide, ih]
      · subst h4
        rw [List.cons_append, List.cons_append, parseStrBody.eq_def]
        simp [show ¬(backslashCh = quoteCh) by decide, unescCh,
          show ¬('t' = quoteCh) by decide,
          show ¬('t' = backslashCh) by decide,
          show ¬('t' = 'n') by decide, ih]
      · subst h5
        rw [List.cons_append, List.cons_append, parseStrBody.eq_def]
        simp [show ¬(backslashCh = quoteCh) by decide, unescCh,
          show ¬('r' = quoteCh) by decide,
          show ¬('r' = backslashCh) by decide,
          show ¬('r' = 'n') by decide, show ¬('r' = 't') by decide, ih]
      · rw [List.cons_append, parseStrBody.eq_def]
        simp [h1, h2, ih]

/-- Folding digits into an accumulator computes the decimal value:
`parseDigitsAcc` over rendered digit characters. -/
theorem parseDigitsAcc_digits (ds : List Nat) :
    ∀ (acc : Nat) (rest : List Char), (∀ d ∈ ds, d < 10) →
      noDigitHead rest = true →
      parseDigitsAcc acc (ds.map digitCh ++ rest) =
        (ds.foldl (fun a d => 10 * a + d) acc, rest) := by
  induction ds with
  | nil =>
      intro acc rest _ hrest
      cases rest with
      | nil => rfl
      | cons c r =>
          have hc : isDigitCh c = false := by
            simpa [noDigitHead] using hrest
          simp [parseDigitsAcc, hc]
  | cons d tail ih =>
      intro acc rest hds hrest
      have hd : d < 10 := hds d (by simp)
      have htail : ∀ x ∈ tail, x < 10 := fun x hx => hds x (by simp [hx])
      simp only [List.map_cons, List.cons_append, parseDigitsAcc,
        isDigitCh_digitCh hd, if_pos, List.append_eq]
      rw [digitCh_toNat hd, ih _ rest htail hrest]
      simp [List.foldl_cons]

/-- All characters of `natDigits` are digit characters. -/
theorem natDigits_all_digit (n : Nat) :
    ∀ c ∈ natDigits n, isDigitCh c = true := by
  intro c hc
  unfold natDigits at hc
  split at hc
  · simp at hc
    subst hc
    decide
  · obtain ⟨d, hd, rfl⟩ := List.mem_map.mp hc
    exact isDigitCh_digitCh
      (Nat.digits_lt_base (by norm_num) (List.mem_reverse.mp hd))

/-- `natDigits` is never empty. -/
theorem natDigits_ne_nil (n : Nat) : natDigits n ≠ [] := by
  unfold natDigits
  split
  · simp
  · simp [Nat.digits_ne_nil_iff_ne_zero, *]

/-- Reversed-digit folding equals `Nat.ofDigits`. -/
theorem foldl_reverse_ofDigits (l : List Nat) :
    l.reverse.foldl (fun a d => 10 * a + d) 0 = Nat.ofDigits 10 l := by
  induction l with
  | nil => simp [Nat.ofDigits]
  | cons d t ih =>
      rw [List.reverse_cons, List.foldl_append, ih, Nat.ofDigits_cons]
      simp only [List.foldl_cons, List.foldl_nil]
      ring

/-- Round trip for natural-number rendering. -/
theorem parseNatCore_natDigits (n : Nat) (rest : List Char)
    (hrest : noDigitHead rest = true) :
    parseNatCore (natDigits n ++ rest) = some (n, rest) := by
  unfold natDigits
  split
  · subst ‹n = 0›
    cases rest with
    | nil => decide
    | cons c r =>
        have hc : isDigitCh c = false := by simpa [noDigitHead] using hrest
        simp [parseNatCore, parseDigitsAcc, hc,
          show isDigitCh '0' = true by decide]
  · rename_i hn
    have hrev : (Nat.digits 10 n).reverse ≠ [] := by
      simp [Nat.digits_ne_nil_iff_ne_zero, hn]
    obtain ⟨d, ds, hds⟩ := List.exists_cons_of_ne_nil hrev
    have hmem : ∀ x ∈ d :: ds, x < 10 := by
      intro x hx
      rw [← hds] at hx
      exact Nat.digits_lt_base (by norm_num) (List.mem_reverse.mp hx)
    have hdlt : d < 10 := hmem d (by simp)
    rw [hds]
    simp only [List.map_cons, List.cons_append, parseNatCore,
      isDigitCh_digitCh hdlt, if_pos]
    rw [digitCh_toNat hdlt,
      parseDigitsAcc_digits ds _ rest (fun x hx => hmem x (by simp [hx])) hrest]
    have hfold : (d :: ds).foldl (fun a x => 10 * a + x) 0 = n := by
      rw [← hds, foldl_reverse_ofDigits, Nat.ofDigits_digits]
    simp only [List.foldl_cons] at hfold
    rw [show 10 * 0 + d = d by omega] at hfold
    rw [hfold]

/-- Round trip for integer rendering. -/
theorem parseNum_renderInt (n : Int) (rest : List Char)
    (hrest : noDigitHead rest = true) :
    parseNum (renderInt n ++ rest) = some (n, rest) := by
  unfold renderInt
  split
  · rename_i hneg
    rw [List.cons_append]
    simp only [parseNum, if_pos rfl, parseNatCore_natDigits n.natAbs rest hrest,
      Int.ofNat_natAbs_of_nonpos (show n ≤ 0 by omega), neg_neg]
    simp
  · rename_i hpos
    obtain ⟨c, cs, hc⟩ := List.exists_cons_of_ne_nil (natDigits_ne_nil n.toNat)
    have hcd : isDigitCh c = true := natDigits_all_digit n.toNat c (by simp [hc])
    rw [hc, List.cons_append]
    simp only [parseNum]
    rw [if_neg (ne_of_digit hcd (by decide))]
    rw [← List.cons_append, ← hc, parseNatCore_natDigits n.toNat rest hrest]
    simp [Int.toNat_of_nonneg (by omega : 0 ≤ n)]

/-- The first character of a rendered integer: a minus sign or a digit. -/
theorem renderInt_head (n : Int) :
    ∃ c cs, renderInt n = c :: cs ∧ (c = '-' ∨ isDigitCh c = true) := by
  unfold renderInt
  split
  · exact ⟨'-', _, rfl, Or.inl rfl⟩
  · obtain ⟨c, cs, hc⟩ := List.exists_cons_of_ne_nil (natDigits_ne_nil n.toNat)
    exact ⟨c, cs, hc, Or.inr (natDigits_all_digit n.toNat c (by simp [hc]))⟩

/-- The first character of any rendered value is not whitespace, not `]`,
and not `}`. -/
theorem renderV_head (v : JVal) :
    ∃ c cs, renderV v = c :: cs ∧ isWsCh c = false ∧ ¬(c = ']') ∧
      ¬(c = rbraceCh) := by
  cases v with
  | null => exact ⟨'n', ['u', 'l', 'l'], rfl, by decide, by decide, by decide⟩
  | bool b =>
      cases b with
      | true => exact ⟨'t', ['r', 'u', 'e'], rfl, by decide, by decide, by decide⟩
      | false =>
          exact ⟨'f', ['a', 'l', 's', 'e'], rfl, by decide, by decide, by decide⟩
  | num n =>
      obtain ⟨c, cs, hc, hd⟩ := renderInt_head n
      refine ⟨c, cs, by simp [renderV, hc], ?_, ?_, ?_⟩
      · rcases hd with rfl | hd
        · decide
        · exact isWsCh_eq_false_of_digit hd
      · rcases hd with rfl | hd
        · decide
        · exact ne_of_digit hd (by decide)
      · rcases hd with rfl | hd
        · decide
        · exact ne_of_digit hd (by decide)
  | str s =>
      exact ⟨quoteCh, escStr s ++ [quoteCh], rfl, by decide, by decide, by decide⟩
  | arr a =>
      cases a with
      | nil => exact ⟨'[', [']'], rfl, by decide, by decide, by decide⟩
      | cons h t =>
          exact ⟨'[', renderV h ++ renderArrTail t ++ [']'], rfl,
            by decide, by decide, by decide⟩
  | obj o =>
      cases o with
      | nil => exact ⟨lbraceCh, [rbraceCh], rfl, by decide, by decide, by decide⟩
      | cons k x t =>
          exact ⟨lbraceCh, renderEntry k x ++ renderObjTail t ++ [rbraceCh], rfl,
            by decide, by decide, by decide⟩

/-- A rendered array tail followed by `]` never starts with a digit. -/
theorem noDigitHead_arrTail (t : JArr) (rest : List Char) :
    noDigitHead (renderArrTail t ++ ']' :: rest) = true := by
  cases t with
  | nil => simp [renderArrTail, noDigitHead]; decide
  | cons h t2 => simp [renderArrTail, noDigitHead]; decide

/-- A rendered object tail followed by the closing brace never starts with
a digit. -/
theorem noDigitHead_objTail (o : JObj) (rest : List Char) :
    noDigitHead (renderObjTail o ++ rbraceCh :: rest) = true := by
  cases o with
  | nil => simp [renderObjTail, noDigitHead]; decide
  | cons k v t2 => simp [renderObjTail, noDigitHead]; decide

mutual
/-- Parsing inverts rendering for every JSON value, with enough fuel and a
non-digit boundary after the rendered text. -/
theorem parseVal_render : ∀ (v : JVal) (f : Nat) (rest : List Char),
    jsizeV v ≤ f → noDigitHead rest = true →
    parseVal f (renderV v ++ rest) = some (v, rest)
  | .null, f, rest, hf, hrest => by
      have h1 : 1 ≤ f := le_trans (by simp [jsizeV]) hf
      obtain ⟨g, rfl⟩ : ∃ g, f = g + 1 := ⟨f - 1, by omega⟩
      show parseVal (g + 1) ('n' :: 'u' :: 'l' :: 'l' :: rest) = _
      rw [parseVal]
      simp [skipWs_cons_of_not_ws (show isWsCh 'n' = false by decide), expectLit]
  | .bool true, f, rest, hf, hrest => by
      have h1 : 1 ≤ f := le_trans (by simp [jsizeV]) hf
      obtain ⟨g, rfl⟩ : ∃ g, f = g + 1 := ⟨f - 1, by omega⟩
      show parseVal (g + 1) ('t' :: 'r' :: 'u' :: 'e' :: rest) = _
      rw [parseVal]
      simp [skipWs_cons_of_not_ws (show isWsCh 't' = false by decide), expectLit]
  | .bool false, f, rest, hf, hrest => by
      have h1 : 1 ≤ f := le_trans (by simp [jsizeV]) hf
      obtain ⟨g, rfl⟩ : ∃ g, f = g + 1 := ⟨f - 1, by omega⟩
      show parseVal (g + 1) ('f' :: 'a' :: 'l' :: 's' :: 'e' :: rest) = _
      rw [parseVal]
      simp [skipWs_cons_of_not_ws (show isWsCh 'f' = false by decide), expectLit]
  | .num n, f, rest, hf, hrest => by
      have h1 : 1 ≤ f := le_trans (by simp [jsizeV]) hf
      obtain ⟨g, rfl⟩ : ∃ g, f = g + 1 := ⟨f - 1, by omega⟩
      obtain ⟨c, cs, hc, hd⟩ := renderInt_head n
      have hcw : isWsCh c = false := by
        rcases hd with rfl | hd
        · decide
        · exact isWsCh_eq_false_of_digit hd
      have hn1 : ¬(c = 'n') := by
        rcases hd with rfl | hd
        · decide
        · exact ne_of_digit hd (by decide)
      have hn2 : ¬(c = 't') := by
        rcases hd with rfl | hd
        · decide
        · exact ne_of_digit hd (by decide)
      have hn3 : ¬(c = 'f') := by
        rcases hd with rfl | hd
        · decide
        · exact ne_of_digit hd (by decide)
      have hn4 : ¬(c = quoteCh) := by
        rcases hd with rfl | hd
        · decide
        · exact ne_of_digit hd (by decide)
      have hn5 : ¬(c = '[') := by
        rcases hd with rfl | hd
        · decide
        · exact ne_of_digit hd (by decide)
      have hn6 : ¬(c = lbraceCh) := by
        rcases hd with rfl | hd
        · decide
        · exact ne_of_digit hd (by decide)
      show parseVal (g + 1) (renderInt n ++ rest) = _
      rw [hc, List.cons_append, parseVal]
      rw [skipWs_cons_of_not_ws hcw]
      simp only [if_neg hn1, if_neg hn2, if_neg hn3, if_neg hn4, if_neg hn5,
        if_neg hn6]
      rw [← List.cons_append, ← hc, parseNum_renderInt n rest hrest]
  | .str s, f, rest, hf, hrest => by
      have h1 : 1 ≤ f := le_trans (by simp [jsizeV]) hf
      obtain ⟨g, rfl⟩ : ∃ g, f = g + 1 := ⟨f - 1, by omega⟩
      have hform : renderV (.str s) ++ rest
          = quoteCh :: (escStr s ++ (quoteCh :: rest)) := by
        simp [renderV]
      rw [hform, parseVal]
      rw [skipWs_cons_of_not_ws (show isWsCh quoteCh = false by decide)]
      simp only [if_neg (show ¬(quoteCh = 'n') by decide),
        if_neg (show ¬(quoteCh = 't') by decide),
        if_neg (show ¬(quoteCh = 'f') by decide), if_pos rfl]
      rw [parseStrBody_esc s rest]
      simp
  | .arr .nil, f, rest, hf, hrest => by
      have h1 : 2 ≤ f := le_trans (by simp [jsizeV]) hf
      obtain ⟨g, rfl⟩ : ∃ g, f = g + 2 := ⟨f - 2, by omega⟩
      show parseVal (g + 1 + 1) ('[' :: ']' :: rest) = _
      rw [parseVal]
      rw [skipWs_cons_of_not_ws (show isWsCh '[' = false by decide)]
      simp only [if_neg (show ¬('[' = 'n') by decide),
        if_neg (show ¬('[' = 't') by decide),
        if_neg (show ¬('[' = 'f') by decide),
        if_neg (show ¬('[' = quoteCh) by decide), if_pos rfl]
      rw [parseArrBody]
      rw [skipWs_cons_of_not_ws (show isWsCh ']' = false by decide)]
      simp
  | .arr (.cons h t), f, rest, hf, hrest => by
      have hsz : 2 + max (jsizeV h) (jsizeA t) ≤ f := le_trans (by simp [jsizeV]) hf
      obtain ⟨g, rfl⟩ : ∃ g, f = g + 2 := ⟨f - 2, by omega⟩
      have hgh : jsizeV h ≤ g := by
        have := le_max_left (jsizeV h) (jsizeA t); omega
      have hgt : jsizeA t ≤ g := by
        have := le_max_right (jsizeV h) (jsizeA t); omega
      have hform : renderV (.arr (.cons h t)) ++ rest
          = '[' :: (renderV h ++ (renderArrTail t ++ (']' :: rest))) := by
        simp [renderV]
      rw [hform]
      show parseVal (g + 1 + 1) _ = _
      rw [parseVal]
      rw [skipWs_cons_of_not_ws (show isWsCh '[' = false by decide)]
      simp only [if_neg (show ¬('[' = 'n') by decide),
        if_neg (show ¬('[' = 't') by decide),
        if_neg (show ¬('[' = 'f') by decide),
        if_neg (show ¬('[' = quoteCh) by decide), if_pos rfl]
      rw [parseArrBody]
      obtain ⟨c, cs, hch, hcw, hcne, _⟩ := renderV_head h
      rw [hch, List.cons_append, skipWs_cons_of_not_ws hcw]
      simp only [if_neg hcne]
      rw [← List.cons_append, ← hch]
      simp [parseVal_render h g _ hgh (noDigitHead_arrTail t rest),
        parseArrSep_render t g rest hgt hrest]
  | .obj .nil, f, rest, hf, hrest => by
      have h1 : 2 ≤ f := le_trans (by simp [jsizeV]) hf
      obtain ⟨g, rfl⟩ : ∃ g, f = g + 2 := ⟨f - 2, by omega⟩
      show parseVal (g + 1 + 1) (lbraceCh :: rbraceCh :: rest) = _
      rw [parseVal]
      rw [skipWs_cons_of_not_ws (show isWsCh lbraceCh = false by decide)]
      simp only [if_neg (show ¬(lbraceCh = 'n') by decide),
        if_neg (show ¬(lbraceCh = 't') by decide),
        if_neg (show ¬(lbraceCh = 'f') by decide),
        if_neg (show ¬(lbraceCh = quoteCh) by decide),
        if_neg (show ¬(lbraceCh = '[') by decide), if_pos rfl]
      rw [parseObjBody]
      rw [skipWs_cons_of_not_ws (show isWsCh rbraceCh = false by decide)]
      simp
  | .obj (.cons k v t), f, rest, hf, hrest => by
      have hsz : 2 + max (jsizeV v + 1) (jsizeO t) ≤ f :=
        le_trans (by simp [jsizeV]) hf
      obtain ⟨g, rfl⟩ : ∃ g, f = g + 2 := ⟨f - 2, by omega⟩
      have hgv : jsizeV v + 1 ≤ g := by
        have := le_max_left (jsizeV v + 1) (jsizeO t); omega
      have hgo : jsizeO t ≤ g := by
        have := le_max_right (jsizeV v + 1) (jsizeO t); omega
      obtain ⟨g3, rfl⟩ : ∃ g3, g = g3 + 1 := ⟨g - 1, by omega⟩
      have hform : renderV (.obj (.cons k v t)) ++ rest
          = lbraceCh :: (quoteCh :: (escStr k ++ (quoteCh :: (':' :: ' ' ::
              (renderV v ++ (renderObjTail t ++ (rbraceCh :: rest))))))) := by
        simp [renderV]
      rw [hform]
      show parseVal (g3 + 1 + 1 + 1) _ = _
      rw [parseVal]
      rw [skipWs_cons_of_not_ws (show isWsCh lbraceCh = false by decide)]
      simp only [if_neg (show ¬(lbraceCh = 'n') by decide),
        if_neg (show ¬(lbraceCh = 't') by decide),
        if_neg (show ¬(lbraceCh = 'f') by decide),
        if_neg (show ¬(lbraceCh = quoteCh) by decide),
        if_neg (show ¬(lbraceCh = '[') by decide), if_pos rfl]
      rw [parseObjBody]
      rw [skipWs_cons_of_not_ws (show isWsCh quoteCh = false by decide)]
      simp only [if_neg (show ¬(quoteCh = rbraceCh) by decide)]
      rw [parseMember]
      rw [skipWs_cons_of_not_ws (show isWsCh quoteCh = false by decide)]
      simp only [if_pos rfl]
      rw [parseStrBody_esc k]
      simp [skipWs_cons_of_not_ws (show isWsCh ':' = false by decide),
        parseVal_space,
        parseVal_render v g3 _ (by omega) (noDigitHead_objTail t rest),
        parseObjSep_render t (g3 + 1) rest hgo hrest]

/-- Parsing inverts rendering for array tails: the separator parser
consumes the rendered tail and the closing bracket. -/
theorem parseArrSep_render : ∀ (t : JArr) (f : Nat) (rest : List Char),
    jsizeA t ≤ f → noDigitHead rest = true →
    parseArrSep f (renderArrTail t ++ (']' :: rest)) = some (t, rest)
  | .nil, f, rest, hf, hrest => by
      have h1 : 1 ≤ f := le_trans (by simp [jsizeA]) hf
      obtain ⟨g, rfl⟩ : ∃ g, f = g + 1 := ⟨f - 1, by omega⟩
      show parseArrSep (g + 1) (']' :: rest) = _
      rw [parseArrSep]
      rw [skipWs_cons_of_not_ws (show isWsCh ']' = false by decide)]
      simp
  | .cons h t, f, rest, hf, hrest => by
      have hsz : 1 + max (jsizeV h) (jsizeA t) ≤ f :=
        le_trans (by simp [jsizeA]) hf
      obtain ⟨g, rfl⟩ : ∃ g, f = g + 1 := ⟨f - 1, by omega⟩
      have hgh : jsizeV h ≤ g := by
        have := le_max_left (jsizeV h) (jsizeA t); omega
      have hgt : jsizeA t ≤ g := by
        have := le_max_right (jsizeV h) (jsizeA t); omega
      have hform : renderArrTail (.cons h t) ++ (']' :: rest)
          = ',' :: ' ' :: (renderV h ++ (renderArrTail t ++ (']' :: rest))) := by
        simp [renderArrTail]
      rw [hform, parseArrSep]
      rw [skipWs_cons_of_not_ws (show isWsCh ',' = false by decide)]
      simp only [if_neg (show ¬(',' = ']') by decide), if_pos rfl]
      rw [parseVal_space]
      simp [parseVal_render h g _ hgh (noDigitHead_arrTail t rest),
        parseArrSep_render t g rest hgt hrest]

/-- Parsing inverts rendering for object tails: the separator parser
consumes the rendered tail and the closing brace. -/
theorem parseObjSep_render : ∀ (o : JObj) (f : Nat) (rest : List Char),
    jsizeO o ≤ f → noDigitHead rest = true →
    parseObjSep f (renderObjTail o ++ (rbraceCh :: rest)) = some (o, rest)
  | .nil, f, rest, hf, hrest => by
      have h1 : 1 ≤ f := le_trans (by simp [jsizeO]) hf
      obtain ⟨g, rfl⟩ : ∃ g, f = g + 1 := ⟨f - 1, by omega⟩
      show parseObjSep (g + 1) (rbraceCh :: rest) = _
      rw [parseObjSep]
      rw [skipWs_cons_of_not_ws (show isWsCh rbraceCh = false by decide)]
      simp
  | .cons k v t, f, rest, hf, hrest => by
      have hsz : 1 + max (jsizeV v + 1) (jsizeO t) ≤ f :=
        le_trans (by simp [jsizeO]) hf
      obtain ⟨g, rfl⟩ : ∃ g, f = g + 1 := ⟨f - 1, by omega⟩
      have hgv : jsizeV v + 1 ≤ g := by
        have := le_max_left (jsizeV v + 1) (jsizeO t); omega
      have hgo : jsizeO t ≤ g := by
        have := le_max_right (jsizeV v + 1) (jsizeO t); omega
      obtain ⟨g3, rfl⟩ : ∃ g3, g = g3 + 1 := ⟨g - 1, by omega⟩
      have hform : renderObjTail (.cons k v t) ++ (rbraceCh :: rest)
          = ',' :: ' ' :: (quoteCh :: (escStr k ++ (quoteCh :: (':' :: ' ' ::
              (renderV v ++ (renderObjTail t ++ (rbraceCh :: rest))))))) := by
        simp [renderObjTail]
      rw [hform, parseObjSep]
      rw [skipWs_cons_of_not_ws (show isWsCh ',' = false by decide)]
      simp only [if_neg (show ¬(',' = rbraceCh) by decide), if_pos rfl]
      rw [parseMember]
      rw [skipWs_space, skipWs_cons_of_not_ws (show isWsCh quoteCh = false by decide)]
      simp only [if_pos rfl]
      rw [parseStrBody_esc k]
      simp [skipWs_cons_of_not_ws (show isWsCh ':' = false by decide),
        parseVal_space,
        parseVal_render v g3 _ (by omega) (noDigitHead_objTail t rest),
        parseObjSep_render t (g3 + 1) rest hgo hrest]
end

mutual
/-- The parse fuel a value needs is dominated by its rendered length. -/
theorem jsizeV_le_render : ∀ (v : JVal), jsizeV v ≤ (renderV v).length + 2
  | .null => by simp [jsizeV, renderV]
  | .bool b => by cases b <;> simp [jsizeV, renderV]
  | .num n => by simp [jsizeV, renderV]
  | .str s => by simp [jsizeV, renderV]
  | .arr .nil => by simp [jsizeV, renderV]
  | .arr (.cons h t) => by
      have h1 := jsizeV_le_render h
      have h2 := jsizeA_le_render t
      have hm : max (jsizeV h) (jsizeA t)
          ≤ (renderV h).length + (renderArrTail t).length + 2 :=
        max_le (by omega) (by omega)
      simp only [jsizeV, renderV, List.length_cons, List.length_append,
        List.length_singleton]
      omega
  | .obj .nil => by simp [jsizeV, renderV]
  | .obj (.cons k v t) => by
      have h1 := jsizeV_le_render v
      have h2 := jsizeO_le_render t
      have hm : max (jsizeV v + 1) (jsizeO t)
          ≤ (renderV v).length + (renderObjTail t).length + 3 :=
        max_le (by omega) (by omega)
      simp only [jsizeV, renderV, List.length_cons, List.length_append,
        List.length_singleton]
      omega

/-- Array-tail fuel is dominated by rendered length. -/
theorem jsizeA_le_render : ∀ (a : JArr), jsizeA a ≤ (renderArrTail a).length + 1
  | .nil => by simp [jsizeA, renderArrTail]
  | .cons h t => by
      have h1 := jsizeV_le_render h
      have h2 := jsizeA_le_render t
      have hm : max (jsizeV h) (jsizeA t)
          ≤ (renderV h).length + (renderArrTail t).length + 2 :=
        max_le (by omega) (by omega)
      simp only [jsizeA, renderArrTail, List.length_cons, List.length_append]
      omega

/-- Object-tail fuel is dominated by rendered length. -/
theorem jsizeO_le_render : ∀ (o : JObj), jsizeO o ≤ (renderObjTail o).length + 1
  | .nil => by simp [jsizeO, renderObjTail]
  | .cons k v t => by
      have h1 := jsizeV_le_render v
      have h2 := jsizeO_le_render t
      have hm : max (jsizeV v + 1) (jsizeO t)
          ≤ (renderV v).length + (renderObjTail t).length + 3 :=
        max_le (by omega) (by omega)
      simp only [jsizeO, renderObjTail, List.length_cons, List.length_append,
        List.length_singleton]
      omega
end

/-- The serialization round trip: `json.loads (json.dumps v)` recovers `v`
for every value of the embedded JSON universe. -/
theorem loads_dumps (v : JVal) : loads (dumps v) = some v := by
  unfold loads dumps
  have h := parseVal_render v ((renderV v).length + 2) []
    (jsizeV_le_render v) rfl
  rw [List.append_nil] at h
  rw [h]
  rfl

/-!
Registry invariants (`add_agent` / `get_agent`).
-/

/-- The agent component of `get_agent` is the first list entry with the
name. -/
theorem getAgentB_eq_find (reg : RegistryB) (n : String) :
    (getAgentB reg n).map (fun p => p.2) = reg.find? (fun ag => ag.name = n) := by
  induction reg with
  | nil => rfl
  | cons a rest ih =>
      by_cases h : a.name = n
      · simp [getAgentB, h, List.find?]
      · simp [getAgentB, h, List.find?, Option.map_map, ← ih]
        rfl

/-- An absent name has zero registered carriers. -/
theorem countNameB_eq_zero_of_none {reg : RegistryB} {n : String}
    (h : getAgentB reg n = none) : countNameB reg n = 0 := by
  have hf : reg.find? (fun ag => ag.name = n) = none := by
    rw [← getAgentB_eq_find, h]
    rfl
  rw [List.find?_eq_none] at hf
  unfold countNameB
  rw [List.filter_eq_nil_iff.mpr]
  · rfl
  · intro x hx
    simpa using hf x hx

/-- Counting distributes over the appended singleton. -/
theorem countNameB_append_single (reg : RegistryB) (a : AgentB) (n : String) :
    countNameB (reg ++ [a]) n
      = countNameB reg n + (if a.name = n then 1 else 0) := by
  unfold countNameB
  rw [List.filter_append]
  by_cases h : a.name = n <;> simp [h]

/-- `add_agent` keeps per-name multiplicity at most one. -/
theorem countNameB_addAgent {reg : RegistryB} (a : AgentB) {n : String}
    (h : countNameB reg n ≤ 1) : countNameB (addAgentB reg a) n ≤ 1 := by
  unfold addAgentB
  cases hg : getAgentB reg a.name with
  | some p => exact h
  | none =>
      rw [countNameB_append_single]
      by_cases hn : a.name = n
      · subst hn
        rw [countNameB_eq_zero_of_none hg]
        simp
      · simp [hn, h]

/-- `add_agent` of an agent whose name is present leaves lookups alone;
of a new name, it appends — so lookup after `add_agent` is lookup-or-new. -/
theorem getAgentB_addAgent (reg : RegistryB) (a : AgentB) (n : String) :
    (getAgentB (addAgentB reg a) n).map (fun p => p.2)
      = match (getAgentB reg n).map (fun p => p.2) with
        | some x => some x
        | none => if a.name = n then some a else none := by
  unfold addAgentB
  cases hg : getAgentB reg a.name with
  | some p =>
      cases hx : (getAgentB reg n).map (fun p => p.2) with
      | some x => rfl
      | none =>
          by_cases hn : a.name = n
          · subst hn
            rw [hg] at hx
            cases hx
          · simp [hn]
  | none =>
      rw [getAgentB_eq_find, List.find?_append, getAgentB_eq_find]
      cases hx : (getAgentB reg n).map (fun p => p.2) with
      | some x => simp [← getAgentB_eq_find, hx]
      | none =>
          rw [← getAgentB_eq_find, hx]
          by_cases hn : a.name = n <;> simp [List.find?, hn]

/-- Registry multiplicity invariant for any `add_agent` history over any
starting registry that satisfies it. -/
theorem countNameB_foldl (l : List AgentB) :
    ∀ (reg : RegistryB) (n : String), countNameB reg n ≤ 1 →
      countNameB (l.foldl addAgentB reg) n ≤ 1 := by
  induction l with
  | nil => intro reg n h; exact h
  | cons a rest ih =>
      intro reg n h
      exact ih (addAgentB reg a) n (countNameB_addAgent a h)

/-- Lookup after an `add_agent` history: the starting registry's entry
wins, else the first added agent of the name. -/
theorem getAgentB_foldl (l : List AgentB) :
    ∀ (reg : RegistryB) (n : String),
      (getAgentB (l.foldl addAgentB reg) n).map (fun p => p.2)
        = match (getAgentB reg n).map (fun p => p.2) with
          | some x => some x
          | none => l.find? (fun ag => ag.name = n) := by
  induction l with
  | nil =>
      intro reg n
      rw [List.foldl_nil]
      cases hx : (getAgentB reg n).map (fun p => p.2) with
      | some x => rfl
      | none => rfl
  | cons a rest ih =>
      intro reg n
      rw [List.foldl_cons, ih (addAgentB reg a) n, getAgentB_addAgent]
      cases hx : (getAgentB reg n).map (fun p => p.2) with
      | some x => rfl
      | none =>
          by_cases hn : a.name = n <;> simp [List.find?, hn]

/-- C6: agent names are unique within a manager's registry. For every
sequence of `add_agent` calls from a fresh manager, the registry holds at
most one agent per name, and `get_agent` returns the first-registered
agent of the name (the first occurrence in the `add_agent` sequence). -/
theorem C6_registry_name_unique (l : List AgentB) (n : String) :
    countNameB (registryOfB l) n ≤ 1 ∧
    (getAgentB (registryOfB l) n).map (fun p => p.2)
      = l.find? (fun ag => ag.name = n) := by
  constructor
  · exact countNameB_foldl l [] n (by simp [countNameB])
  · rw [registryOfB, getAgentB_foldl l [] n]
    rfl

/-!
Storage-layer claims: system-message reset, serialization round trip.
-/

/-- A `{"role": r, "content": c}` dict passes the `set_messages`
validation. -/
theorem isValidMsgJ_msgObjJ (r c : List Char) :
    isValidMsgJ (msgObjJ r c) = true := by
  simp [isValidMsgJ, msgObjJ, hasKeyJ]

/-- The rendering of any value is a non-empty character list. -/
theorem dumps_ne_nil (v : JVal) : dumps v ≠ [] := by
  obtain ⟨c, cs, hc, -⟩ := renderV_head v
  rw [dumps, hc]
  simp

/-- Reading back a stored `dumps` recovers the value: `get_messages` after
a successful `set_messages`. -/
theorem getMessagesJ_dumps (st : ModelJ) (v : JVal)
    (h : st.messages = some (dumps v)) : getMessagesJ st = some v := by
  obtain ⟨c, cs, hc, -⟩ := renderV_head v
  have hc2 : dumps v = c :: cs := hc
  unfold getMessagesJ
  rw [h, hc2]
  show loads (c :: cs) = some v
  rw [← hc2]
  exact loads_dumps v

/-- A valid message list is stored as its serialization. -/
theorem setMessagesJ_ok (st : ModelJ) (ms : JArr) (hv : validMsgsJ ms = true) :
    setMessagesJ st (.arr ms) = .ok ⟨some (dumps (.arr ms))⟩ := by
  simp [setMessagesJ, hv]

set_option maxHeartbeats 1600000 in
/-- C9: `OpenAi.set_system_message` replaces the entire stored history
with the single-element system list, for every prior store; hence
`initialize_user_input` resets the history to `[system]` (plus the user
message when input is present) regardless of what was stored before. -/
theorem C9_set_system_message_resets (st : ModelJ) (t : List Char)
    (input : Option (List Char)) :
    setSystemMessageJ st t = .ok ⟨some (dumps (sysListJ t))⟩ ∧
    getMessagesJ ⟨some (dumps (sysListJ t))⟩ = some (sysListJ t) ∧
    initializeMessagesJ st t input = .ok ⟨some (dumps (initListJ t input))⟩ ∧
    getMessagesJ ⟨some (dumps (initListJ t input))⟩ = some (initListJ t input) := by
  have hval : validMsgsJ (.cons (msgObjJ "system".toList t) .nil) = true := by
    simp [validMsgsJ, isValidMsgJ_msgObjJ]
  have hsys : setSystemMessageJ st t = .ok ⟨some (dumps (sysListJ t))⟩ :=
    setMessagesJ_ok st _ hval
  refine ⟨hsys, getMessagesJ_dumps _ _ rfl, ?_, getMessagesJ_dumps _ _ rfl⟩
  unfold initializeMessagesJ
  rw [hsys]
  cases input with
  | none => rfl
  | some u =>
      show setUserMessageJ ⟨some (dumps (sysListJ t))⟩ u = _
      unfold setUserMessageJ
      rw [getMessagesJ_dumps _ (sysListJ t) rfl]
      rw [setMessagesJ_ok _ _
        (by simp [sysListJ, appendArrJ, validMsgsJ, isValidMsgJ_msgObjJ])]
      rfl

/-- C10: message storage round-trips through its internal JSON-string
serialization. For every message list whose elements are dicts with both
`role` and `content` keys, `set_messages` stores and `get_messages`
returns the same list; `set_messages` raises `TypeError` on a non-list
argument and `ValueError` when an element lacks the keys. -/
theorem C10_messages_roundtrip :
    (∀ (st : ModelJ) (ms : JArr), validMsgsJ ms = true →
        setMessagesJ st (.arr ms) = .ok ⟨some (dumps (.arr ms))⟩ ∧
        getMessagesJ ⟨some (dumps (.arr ms))⟩ = some (.arr ms)) ∧
    (∀ (st : ModelJ) (v : JVal), (∀ ms : JArr, v ≠ .arr ms) →
        setMessagesJ st v = .error .typeError) ∧
    (∀ (st : ModelJ) (ms : JArr), validMsgsJ ms = false →
        setMessagesJ st (.arr ms) = .error .valueError) := by
  refine ⟨fun st ms hv => ⟨?_, getMessagesJ_dumps _ _ rfl⟩, fun st v hv => ?_, 
    fun st ms hv => ?_⟩
  · simp [setMessagesJ, hv]
  · cases v with
    | arr ms => exact absurd rfl (hv ms)
    | null => rfl
    | bool b => rfl
    | num n => rfl
    | str s => rfl
    | obj o => rfl
  · simp [setMessagesJ, hv]

/-- Witness for C10 at a concrete history: a two-message list stores and
reads back unchanged; a non-list argument raises `TypeError`; a message
without `content` raises `ValueError`. -/
theorem C10_messages_roundtrip_witness :
    (setMessagesJ ⟨none⟩ (.arr demoMsgsOk)
        = .ok ⟨some (dumps (.arr demoMsgsOk))⟩ ∧
      getMessagesJ ⟨some (dumps (.arr demoMsgsOk))⟩ = some (.arr demoMsgsOk)) ∧
    setMessagesJ ⟨none⟩ (.str "x".toList) = .error .typeError ∧
    setMessagesJ ⟨none⟩ (.arr demoMsgBad) = .error .valueError :=
  ⟨C10_messages_roundtrip.1 ⟨none⟩ demoMsgsOk rfl,
   C10_messages_roundtrip.2.1 ⟨none⟩ _ (fun ms h => JVal.noConfusion h),
   C10_messages_roundtrip.2.2 ⟨none⟩ demoMsgBad rfl⟩

/-!
The `set_instruction` defect (C7) and its reach into `Container.run` (C8).
-/

/-- C7 (code bug): with a system message already stored,
`Agent.set_instruction` raises `AttributeError` instead of replacing the
system message — the loop iterates the JSON-serialized *string* — while
the instruction field itself has already been reassigned; with no stored
history the call returns normally and no system message is written at
all. -/
theorem C7_set_instruction_attribute_error :
    setInstructionJ agentBUsed "new".toList
      = (⟨"B".toList, "new".toList, agentBUsed.modelMessages⟩,
         some .attributeError) ∧
    setInstructionJ agentBFresh "new".toList
      = (⟨"B".toList, "new".toList, none⟩, none) :=
  ⟨rfl, rfl⟩

/-- C8 (code bug): `Container.run` with a `return_to` agent substitutes
the decoded output into the `{result}` placeholder and returns the target
agent with that instruction installed — for a fresh target agent; but when
the target agent's model already stores a history, the `set_instruction`
call raises `AttributeError`, which propagates out of `run` instead of the
agent being returned. -/
theorem C8_container_run_scenarioD :
    containerRunA contD (.obj .nil)
      = .ok (.agent ⟨"B".toList, "Use: 42".toList, none⟩) ∧
    containerRunA contDUsed (.obj .nil) = .error .attributeError :=
  ⟨rfl, rfl⟩

/-!
Orchestration claims.
-/

/-- After initialization the agent's store holds exactly the initial
history. -/
theorem initAgentB_messages (ag : AgentB) (input : Option String) :
    (initAgentB ag input).messages = some (initHistB ag input) := by
  cases ag with
  | mk n instr ts m => cases input <;> rfl

/-- Initialization does not change name, instruction or tools. -/
theorem initAgentB_fields (ag : AgentB) (input : Option String) :
    (initAgentB ag input).name = ag.name ∧
    (initAgentB ag input).instruction = ag.instruction ∧
    (initAgentB ag input).tools = ag.tools := by
  cases ag with
  | mk n instr ts m => cases input <;> exact ⟨rfl, rfl, rfl⟩

/-- C3: when the first response carries no tool calls, `run_agent` returns
that response unmodified, makes exactly one model call (the trace is the
singleton initial history), and leaves the registry with only the
initialization state (no assistant or tool messages are appended). -/
theorem C3_terminal_no_toolcalls (oracle : List MsgB → RespB) (f : Nat)
    (reg : RegistryB) (name : String) (input : Option String)
    (i : Nat) (ag : AgentB)
    (hag : getAgentB reg name = some (i, ag))
    (hresp : (oracle (initHistB ag input)).toolCalls = []) :
    runAgentB oracle (f + 1) reg name input
      = (.ok (oracle (initHistB ag input)) (reg.set i (initAgentB ag input)),
         [initHistB ag input]) := by
  rw [runAgentB]
  simp only [hag, initAgentB_messages, hresp]
  rfl

/-- Witness for C3 (scenario A): the tool-free `echo` agent returns the
stub response as-is and history is `[system, user]` only. -/
theorem C3_terminal_no_toolcalls_witness :
    runAgentB oracleEcho 1 [echoAg] "echo" (some "hello")
      = (.ok (oracleEcho (initHistB echoAg (some "hello")))
          ([echoAg].set 0 (initAgentB echoAg (some "hello"))),
         [initHistB echoAg (some "hello")]) :=
  C3_terminal_no_toolcalls oracleEcho 0 [echoAg] "echo" (some "hello") 0 echoAg
    rfl rfl

/-- C4: a tool call whose string arguments are not valid JSON never
raises: the call yields the tool response `Error: Invalid JSON in
arguments` with id and name preserved, the call is skipped (its tool body
never runs: the executed-tool log gains no entry) and dispatch continues
with the remaining calls; at the `run_agent` level the loop proceeds to
the follow-up model call and returns normally. -/
theorem C4_invalid_json_arguments :
    (∀ (ag : AgentB) (tc : ToolCallW) (rest : List ToolCallW) (s : List Char),
        tc.arguments = .raw s → loads s = none →
        processToolCalls ag (tc :: rest)
          = (prependResp ⟨tc.id, "Error: Invalid JSON in arguments", tc.name⟩
              (processToolCalls ag rest).1,
             (processToolCalls ag rest).2)) ∧
    (∀ (oracle : List MsgB → RespB) (f : Nat) (reg : RegistryB) (name : String)
        (input : Option String) (i : Nat) (ag : AgentB) (tc : ToolCallW)
        (s : List Char),
        getAgentB reg name = some (i, ag) →
        (oracle (initHistB ag input)).toolCalls = [tc] →
        tc.arguments = .raw s → loads s = none →
        (oracle (histAfterTools ag input (oracle (initHistB ag input))
            [⟨tc.id, "Error: Invalid JSON in arguments", tc.name⟩])).toolCalls
          = [] →
        runAgentB oracle (f + 1) reg name input
          = (.ok (oracle (histAfterTools ag input (oracle (initHistB ag input))
                [⟨tc.id, "Error: Invalid JSON in arguments", tc.name⟩]))
              ((reg.set i (initAgentB ag input)).set i
                ((initAgentB ag input).withMessages
                  (some (histAfterTools ag input (oracle (initHistB ag input))
                    [⟨tc.id, "Error: Invalid JSON in arguments", tc.name⟩])))),
             [initHistB ag input,
              histAfterTools ag input (oracle (initHistB ag input))
                [⟨tc.id, "Error: Invalid JSON in arguments", tc.name⟩]])) := by
  have hstep : ∀ (ag : AgentB) (tc : ToolCallW) (rest : List ToolCallW)
      (s : List Char), tc.arguments = .raw s → loads s = none →
      processToolCalls ag (tc :: rest)
        = (prependResp ⟨tc.id, "Error: Invalid JSON in arguments", tc.name⟩
            (processToolCalls ag rest).1,
           (processToolCalls ag rest).2) := by
    intro ag tc rest s hraw hloads
    rcases hpr : processToolCalls ag rest with ⟨p, lg⟩
    rw [processToolCalls, hraw]
    show (match loads s with
      | none =>
        let pr := processToolCalls ag rest
        (prependResp ⟨tc.id, "Error: Invalid JSON in arguments", tc.name⟩ pr.1,
          pr.2)
      | some args => _) = _
    rw [hloads, hpr]
  refine ⟨hstep, ?_⟩
  intro oracle f reg name input i ag tc s hag horacle hraw hloads hfollow
  rw [runAgentB]
  simp only [hag, initAgentB_messages, horacle]
  have hproc : processToolCalls (initAgentB ag input) [tc]
      = (.responses [⟨tc.id, "Error: Invalid JSON in arguments", tc.name⟩],
         []) := by
    rw [hstep (initAgentB ag input) tc [] s hraw hloads]
    rfl
  have hfollow2 : (oracle (initHistB ag input
      ++ assistantMsgB (oracle (initHistB ag input))
        :: toolMsgsB [⟨tc.id, "Error: Invalid JSON in arguments", tc.name⟩])).toolCalls
      = [] := by
    simpa [histAfterTools] using hfollow
  simp only [hproc]
  simp [histAfterTools, hfollow2]

/-- Witness for C4: a concrete `not json` argument payload is skipped with
the exact error text, and the concrete run completes with the follow-up
response. -/
theorem C4_invalid_json_arguments_witness :
    processToolCalls calcAgB (tcBadJson :: [tcC2a])
      = (prependResp
          ⟨tcBadJson.id, "Error: Invalid JSON in arguments", tcBadJson.name⟩
          (processToolCalls calcAgB [tcC2a]).1,
         (processToolCalls calcAgB [tcC2a]).2) ∧
    runAgentB oracleC4 1 [calcAgB] "calc" (some "q")
      = (.ok (oracleC4 (histAfterTools calcAgB (some "q")
            (oracleC4 (initHistB calcAgB (some "q")))
            [⟨tcBadJson.id, "Error: Invalid JSON in arguments", tcBadJson.name⟩]))
          (([calcAgB].set 0 (initAgentB calcAgB (some "q"))).set 0
            ((initAgentB calcAgB (some "q")).withMessages
              (some (histAfterTools calcAgB (some "q")
                (oracleC4 (initHistB calcAgB (some "q")))
                [⟨tcBadJson.id, "Error: Invalid JSON in arguments",
                  tcBadJson.name⟩])))),
         [initHistB calcAgB (some "q"),
          histAfterTools calcAgB (some "q")
            (oracleC4 (initHistB calcAgB (some "q")))
            [⟨tcBadJson.id, "Error: Invalid JSON in arguments",
              tcBadJson.name⟩]]) :=
  ⟨C4_invalid_json_arguments.1 calcAgB tcBadJson [tcC2a] "not json".toList
      rfl rfl,
   C4_invalid_json_arguments.2 oracleC4 0 [calcAgB] "calc" (some "q") 0 calcAgB
      tcBadJson "not json".toList rfl rfl rfl rfl rfl⟩

/-- C5: a raising tool never aborts the loop. A matched callable whose
body raises is converted to the tool result `Error executing tool: <msg>`;
a matched Container whose process fails is converted the same way (with
the re-raised `Error running container:` text inside); dispatch then
continues with the remaining calls; and `run_agent` still issues the
follow-up model call with the updated history. -/
theorem C5_tool_exception_recovered :
    (∀ (n : String) (impl : JVal → FnOut) (rest : ToolsB) (args : JVal)
        (m : String), impl args = .raiseMsg m →
        findAndRun (.cons (.fn n impl) rest) n args
          = .resp ("Error executing tool: " ++ m)) ∧
    (∀ (nm : String) (rt : OptReturnToB) (rest : ToolsB) (args : JVal)
        (m : String),
        findAndRun (.cons (.container (.mk nm (.dockerFail m) rt)) rest) nm args
          = .resp ("Error executing tool: " ++ ("Error running container: " ++ m))) ∧
    (∀ (ag : AgentB) (tc : ToolCallW) (rest : List ToolCallW) (args : JVal)
        (s' : String),
        parsePayloadB tc.arguments = some args →
        findAndRun ag.tools tc.name args = .resp s' →
        processToolCalls ag (tc :: rest)
          = (prependResp ⟨tc.id, s', tc.name⟩ (processToolCalls ag rest).1,
             tc.name :: (processToolCalls ag rest).2)) ∧
    (∀ (oracle : List MsgB → RespB) (f : Nat) (reg : RegistryB) (name : String)
        (input : Option String) (i : Nat) (ag : AgentB) (rs : List ToolRespB)
        (lg : List String),
        getAgentB reg name = some (i, ag) →
        (oracle (initHistB ag input)).toolCalls ≠ [] →
        processToolCalls (initAgentB ag input)
            ((oracle (initHistB ag input)).toolCalls) = (.responses rs, lg) →
        (runAgentB oracle (f + 1) reg name input).2.get? 1
          = some (histAfterTools ag input (oracle (initHistB ag input)) rs)) := by
  refine ⟨?_, ?_, ?_, ?_⟩
  · intro n impl rest args m himpl
    rw [findAndRun, if_pos rfl, himpl]
  · intro nm rt rest args m
    rw [findAndRun]
    show (if nm = nm then _ else _) = _
    rw [if_pos rfl]
    rfl
  · intro ag tc rest args s' hparse hrun
    rcases hpr : processToolCalls ag rest with ⟨p, lg⟩
    rw [processToolCalls, hparse]
    show (match findAndRun ag.tools tc.name args with
      | .handoff a => (PTCB.handoffR a, [tc.name])
      | .resp s =>
        let pr := processToolCalls ag rest
        (prependResp ⟨tc.id, s, tc.name⟩ pr.1, tc.name :: pr.2)
      | .notFound =>
        let pr := processToolCalls ag rest
        (prependResp ⟨tc.id, toolNotFoundMsg tc.name, tc.name⟩ pr.1, pr.2)) = _
    rw [hrun, hpr]
  · intro oracle f reg name input i ag rs lg hag hne hptc
    rw [runAgentB]
    simp only [hag, initAgentB_messages, if_neg hne, hptc]
    split <;> simp [histAfterTools]

/-- Witness for C5 (scenario C): a tool raising `division by zero` yields
the textual error result, dispatch continues, and the concrete run still
makes the follow-up model call. -/
theorem C5_tool_exception_recovered_witness :
    findAndRun (.cons (.fn "boom" (fun _ => .raiseMsg "division by zero")) .nil)
        "boom" (.obj .nil)
      = .resp ("Error executing tool: " ++ "division by zero") ∧
    findAndRun (.cons (.container (.mk "db" (.dockerFail "connection refused")
        .none)) .nil) "db" (.obj .nil)
      = .resp ("Error executing tool: "
          ++ ("Error running container: " ++ "connection refused")) ∧
    processToolCalls boomAgB (tcBoom :: [tcC2a])
      = (prependResp ⟨tcBoom.id, "Error executing tool: division by zero",
            tcBoom.name⟩
          (processToolCalls boomAgB [tcC2a]).1,
         tcBoom.name :: (processToolCalls boomAgB [tcC2a]).2) ∧
    (runAgentB oracleC5 1 [boomAgB] "crash" (some "go")).2.get? 1
      = some (histAfterTools boomAgB (some "go")
          (oracleC5 (initHistB boomAgB (some "go")))
          [⟨tcBoom.id, "Error executing tool: division by zero", tcBoom.name⟩]) :=
  ⟨C5_tool_exception_recovered.1 "boom" (fun _ => .raiseMsg "division by zero")
      .nil (.obj .nil) "division by zero" rfl,
   C5_tool_exception_recovered.2.1 "db" .none .nil (.obj .nil)
      "connection refused",
   C5_tool_exception_recovered.2.2.1 boomAgB tcBoom [tcC2a] (.obj .nil)
      "Error executing tool: division by zero" rfl rfl,
   C5_tool_exception_recovered.2.2.2 oracleC5 0 [boomAgB] "crash" (some "go")
      0 boomAgB
      [⟨tcBoom.id, "Error executing tool: division by zero", tcBoom.name⟩]
      [tcBoom.name] rfl (by decide) rfl⟩

/-- A successful lookup means at least one carrier of the name. -/
theorem countNameB_pos_of_some {reg : RegistryB} {n : String}
    {p : Nat × AgentB} (h : getAgentB reg n = some p) :
    1 ≤ countNameB reg n := by
  have hf : reg.find? (fun ag => ag.name = n) = some p.2 := by
    rw [← getAgentB_eq_find, h]
    rfl
  have hmem : p.2 ∈ reg := List.mem_of_find?_eq_some hf
  have hpred : p.2.name = n := by
    have := List.find?_some hf
    simpa using this
  unfold countNameB
  have : p.2 ∈ reg.filter (fun ag => ag.name = n) :=
    List.mem_filter.mpr ⟨hmem, by simp [hpred]⟩
  exact List.length_pos.mpr (fun he => by rw [he] at this; cases this)

/-- After `add_agent`, a name that had at most one carrier has exactly
one. -/
theorem countNameB_addAgent_eq_one {reg : RegistryB} (a : AgentB)
    (h : countNameB reg a.name ≤ 1) :
    countNameB (addAgentB reg a) a.name = 1 := by
  unfold addAgentB
  cases hg : getAgentB reg a.name with
  | some p =>
      have := countNameB_pos_of_some hg
      show countNameB reg a.name = 1
      omega
  | none =>
      show countNameB (reg ++ [a]) a.name = 1
      rw [countNameB_append_single, countNameB_eq_zero_of_none hg]
      simp

/-- The double guard in `run_agent` (`get_agent` check then `add_agent`,
which checks again) collapses to `add_agent`. -/
theorem handoff_register_eq (reg : RegistryB) (a : AgentB) :
    (match getAgentB reg a.name with
      | some _ => reg
      | none => addAgentB reg a) = addAgentB reg a := by
  cases hg : getAgentB reg a.name with
  | some p =>
      show reg = addAgentB reg a
      unfold addAgentB
      rw [hg]
  | none => rfl

/-- C1: the agent-handoff short circuit. When a dispatched tool returns an
Agent, `_process_tool_calls` returns the handoff marker at once (the
remaining calls of the batch are never examined — the result and executed
log mention only the handing-off call, for every `rest`); `run_agent` then
registers the returned agent (a no-op when the name is already known, so
the name's multiplicity stays exactly one) and returns the result of
recursively running the new agent's name with the original input. -/
theorem C1_handoff_short_circuit :
    (∀ (ag : AgentB) (tc : ToolCallW) (rest : List ToolCallW) (args : JVal)
        (a : AgentB),
        parsePayloadB tc.arguments = some args →
        findAndRun ag.tools tc.name args = .handoff a →
        processToolCalls ag (tc :: rest) = (.handoffR a, [tc.name])) ∧
    (∀ (oracle : List MsgB → RespB) (f : Nat) (reg : RegistryB) (name : String)
        (input : Option String) (i : Nat) (ag na : AgentB) (lg : List String),
        getAgentB reg name = some (i, ag) →
        (oracle (initHistB ag input)).toolCalls ≠ [] →
        processToolCalls (initAgentB ag input)
            ((oracle (initHistB ag input)).toolCalls) = (.handoffR na, lg) →
        (runAgentB oracle (f + 1) reg name input
          = ((runAgentB oracle f (addAgentB (reg.set i (initAgentB ag input)) na)
                na.name input).1,
             initHistB ag input ::
               (runAgentB oracle f
                 (addAgentB (reg.set i (initAgentB ag input)) na)
                 na.name input).2) ∧
         (countNameB (reg.set i (initAgentB ag input)) na.name ≤ 1 →
          countNameB (addAgentB (reg.set i (initAgentB ag input)) na) na.name
            = 1))) := by
  constructor
  · intro ag tc rest args a hparse hrun
    rw [processToolCalls, hparse]
    show (match findAndRun ag.tools tc.name args with
      | .handoff a => (PTCB.handoffR a, [tc.name])
      | .resp s =>
        let pr := processToolCalls ag rest
        (prependResp ⟨tc.id, s, tc.name⟩ pr.1, tc.name :: pr.2)
      | .notFound =>
        let pr := processToolCalls ag rest
        (prependResp ⟨tc.id, toolNotFoundMsg tc.name, tc.name⟩ pr.1, pr.2)) = _
    rw [hrun]
  · intro oracle f reg name input i ag na lg hag hne hptc
    refine ⟨?_, fun hcount => countNameB_addAgent_eq_one na hcount⟩
    rw [runAgentB]
    simp only [hag, initAgentB_messages, if_neg hne, hptc,
      handoff_register_eq]

/-- Witness for C1: a concrete two-call batch whose first call hands off —
the second call is never dispatched, the handed-off agent is registered
once, and the run defers to running the new agent with the original
input. -/
theorem C1_handoff_short_circuit_witness :
    processToolCalls triageAgB (tcHand :: [tcAfter])
      = (.handoffR handedAgB, [tcHand.name]) ∧
    ((runAgentB oracleC1 2 [triageAgB] "triage" (some "help")
        = ((runAgentB oracleC1 1
              (addAgentB ([triageAgB].set 0 (initAgentB triageAgB (some "help")))
                handedAgB) handedAgB.name (some "help")).1,
           initHistB triageAgB (some "help") ::
             (runAgentB oracleC1 1
               (addAgentB ([triageAgB].set 0 (initAgentB triageAgB (some "help")))
                 handedAgB) handedAgB.name (some "help")).2)) ∧
      (countNameB ([triageAgB].set 0 (initAgentB triageAgB (some "help")))
          handedAgB.name ≤ 1 →
       countNameB (addAgentB
           ([triageAgB].set 0 (initAgentB triageAgB (some "help"))) handedAgB)
           handedAgB.name = 1)) :=
  ⟨C1_handoff_short_circuit.1 triageAgB tcHand [tcAfter] (.obj .nil) handedAgB
      rfl rfl,
   C1_handoff_short_circuit.2 oracleC1 1 [triageAgB] "triage" (some "help") 0
      triageAgB handedAgB [tcHand.name] rfl (by decide) rfl⟩

/-- C2 (amended): when the follow-up response again carries tool calls,
`run_agent` recurses with the same agent name and null input — but the
recursive call does not resume from the persisted history: every
`run_agent` invocation's first model call sees exactly the freshly
initialized history (`set_system_message` in the OpenAi adapter resets the
store to the single system message; with null input no user message is
re-added), so the recursive call starts from `[system]`, not from the
history persisted at the end of the previous iteration. -/
theorem C2_recursion_reinitializes_history :
    (∀ (oracle : List MsgB → RespB) (f : Nat) (reg : RegistryB) (name : String)
        (input : Option String) (i : Nat) (ag : AgentB),
        getAgentB reg name = some (i, ag) →
        (runAgentB oracle (f + 1) reg name input).2.head?
          = some (initHistB ag input)) ∧
    (∀ (oracle : List MsgB → RespB) (f : Nat) (reg : RegistryB) (name : String)
        (input : Option String) (i : Nat) (ag : AgentB) (rs : List ToolRespB)
        (lg : List String),
        getAgentB reg name = some (i, ag) →
        (oracle (initHistB ag input)).toolCalls ≠ [] →
        processToolCalls (initAgentB ag input)
            ((oracle (initHistB ag input)).toolCalls) = (.responses rs, lg) →
        (oracle (histAfterTools ag input (oracle (initHistB ag input))
            rs)).toolCalls ≠ [] →
        runAgentB oracle (f + 1) reg name input
          = ((runAgentB oracle f
                ((reg.set i (initAgentB ag input)).set i
                  ((initAgentB ag input).withMessages
                    (some (histAfterTools ag input
                      (oracle (initHistB ag input)) rs))))
                name none).1,
             initHistB ag input ::
               histAfterTools ag input (oracle (initHistB ag input)) rs ::
                 (runAgentB oracle f
                   ((reg.set i (initAgentB ag input)).set i
                     ((initAgentB ag input).withMessages
                       (some (histAfterTools ag input
                         (oracle (initHistB ag input)) rs))))
                   name none).2)) := by
  constructor
  · intro oracle f reg name input i ag hag
    rw [runAgentB]
    simp only [hag, initAgentB_messages]
    split
    · simp
    · split
      · simp
      · split <;> simp
  · intro oracle f reg name input i ag rs lg hag hne1 hptc hne2
    simp only [histAfterTools] at hne2
    rw [runAgentB]
    simp only [hag, initAgentB_messages, if_neg hne1, hptc, if_neg hne2]
    rfl

/-- Witness for the amended C2, on the concrete two-step scenario: the
head of every run's trace is the initialized history, and the recursion
equation holds with the same name and null input. -/
theorem C2_recursion_reinitializes_history_witness :
    (runAgentB oracleC2 3 [calcAgB] "calc" (some "q")).2.head?
      = some (initHistB calcAgB (some "q")) ∧
    runAgentB oracleC2 3 [calcAgB] "calc" (some "q")
      = ((runAgentB oracleC2 2
            (([calcAgB].set 0 (initAgentB calcAgB (some "q"))).set 0
              ((initAgentB calcAgB (some "q")).withMessages
                (some (histAfterTools calcAgB (some "q")
                  (oracleC2 (initHistB calcAgB (some "q")))
                  [⟨tcC2a.id, "5", tcC2a.name⟩]))))
            "calc" none).1,
         initHistB calcAgB (some "q") ::
           histAfterTools calcAgB (some "q")
             (oracleC2 (initHistB calcAgB (some "q")))
             [⟨tcC2a.id, "5", tcC2a.name⟩] ::
             (runAgentB oracleC2 2
               (([calcAgB].set 0 (initAgentB calcAgB (some "q"))).set 0
                 ((initAgentB calcAgB (some "q")).withMessages
                   (some (histAfterTools calcAgB (some "q")
                     (oracleC2 (initHistB calcAgB (some "q")))
                     [⟨tcC2a.id, "5", tcC2a.name⟩]))))
               "calc" none).2) :=
  ⟨C2_recursion_reinitializes_history.1 oracleC2 2 [calcAgB] "calc" (some "q")
      0 calcAgB rfl,
   C2_recursion_reinitializes_history.2 oracleC2 2 [calcAgB] "calc" (some "q")
      0 calcAgB [⟨tcC2a.id, "5", tcC2a.name⟩] [tcC2a.name] rfl (by decide) rfl
      (by decide)⟩

/-- Counterexample to C2 as stated: in the concrete two-step run the
history persisted at the end of the first iteration (trace entry 1, four
messages: system, user, assistant tool-call, tool result) differs from the
history the model sees at the start of the recursive call (trace entry 2,
which is just the single freshly-set system message). -/
theorem C2_counterexample :
    (runAgentB oracleC2 3 [calcAgB] "calc" (some "q")).2.get? 2
      = some [sysMsgB calcAgB.instruction] ∧
    ((runAgentB oracleC2 3 [calcAgB] "calc" (some "q")).2.get? 1).map
        List.length = some 4 ∧
    (runAgentB oracleC2 3 [calcAgB] "calc" (some "q")).2.get? 2
      ≠ (runAgentB oracleC2 3 [calcAgB] "calc" (some "q")).2.get? 1 := by
  refine ⟨by decide, by decide, by decide⟩
